import Mathlib

/-!
Verification of the subtitle-cleaning core of `mkv-lab` (`src/fix_cc.py`).

The Python source is shallowly embedded: strings become `List Char`, the
handful of regular expressions used by the cleaner become explicit scanner
functions with the exact semantics of the Python `re` calls on the patterns
involved, Python `set` becomes a de-duplicating list, and the stateful SRT
parser becomes a fold over an explicit parser state. All definitions are
executable and structurally recursive, so concrete runs can be settled with
`decide` / `rfl`.
-/

set_option maxRecDepth 8000

namespace FixCC

/-! ## Character classes -/

/-- The whitespace class used by Python `str.strip()` and the regex class
`\s` (the ASCII whitespace characters; subtitle data contains no exotic
Unicode whitespace). -/
def isPySpace (c : Char) : Bool :=
  c = ' ' || c = '\t' || c = '\n' || c = '\r' || c = '\x0b' || c = '\x0c'

/-- The dash alternatives of the regex `LEADING_DASHES = ^[\-\–\—]`:
hyphen, en dash, em dash. -/
def isDashChar (c : Char) : Bool := c = '-' || c = '–' || c = '—'

/-- The punctuation class of `SPACES_BEFORE_PUNCTUATION = \s+([.,!?;:])`. -/
def isPunctChar (c : Char) : Bool :=
  c = '.' || c = ',' || c = '!' || c = '?' || c = ';' || c = ':'

/-! ## Python string primitives -/

/-- Python `str.strip()`: remove leading and trailing whitespace. -/
def pyStrip (l : List Char) : List Char :=
  ((l.dropWhile isPySpace).reverse.dropWhile isPySpace).reverse

/-- Python `str.split('\n')`.  Always returns at least one piece; the empty
string yields `[[]]`. -/
def splitNL : List Char → List (List Char)
  | [] => [[]]
  | c :: cs =>
    if c = '\n' then [] :: splitNL cs
    else
      match splitNL cs with
      | l :: ls => (c :: l) :: ls
      | [] => [[c]]

/-- Python `'\n'.join(...)`. -/
def joinNL : List (List Char) → List Char
  | [] => []
  | [l] => l
  | l :: ls => l ++ '\n' :: joinNL ls

/-- Python `line.rstrip('\n\r')` as applied to each raw file line in
`parse_subtitles`. -/
def rstripNLCR (l : List Char) : List Char :=
  (l.reverse.dropWhile (fun c => c = '\n' || c = '\r')).reverse

/-- List-of-chars version of a Lean string literal (used for examples). -/
def strL (s : String) : List Char := s.data

/-! ## The regular-expression operations of `RegexPatterns`

Each compiled pattern of the Python source is embedded as a scanner with
exactly the semantics of the `re` call the source performs on it. -/

/-- The text after the first occurrence of `c`, if any. -/
def afterFirst (c : Char) : List Char → Option (List Char)
  | [] => none
  | d :: l => if d = c then some l else afterFirst c l

/-- Scanner for `re.sub(op [^cl]* cl, '', text)` (patterns `PARENTHESES`,
`BRACKETS`, `CURLY_BRACKETS`, `HASH`): repeatedly remove the leftmost span
from an opening delimiter to the next closing delimiter.  The state `some buf`
means an opening delimiter was seen and `buf` (reversed) has accumulated since
it; if no closing delimiter ever arrives the buffered text is emitted
verbatim, exactly as the regex leaves an unclosed span untouched. -/
def removeDelimitedGo (op cl : Char) : Option (List Char) → List Char → List Char
  | none, [] => []
  | some buf, [] => op :: buf.reverse
  | none, c :: cs =>
    if c = op then removeDelimitedGo op cl (some []) cs
    else c :: removeDelimitedGo op cl none cs
  | some buf, c :: cs =>
    if c = cl then removeDelimitedGo op cl none cs
    else removeDelimitedGo op cl (some (c :: buf)) cs

/-- Embeds `PATTERN.sub('', text)` for a delimiter pair. -/
def removeDelimited (op cl : Char) (l : List Char) : List Char :=
  removeDelimitedGo op cl none l

/-- Embeds `PATTERN.search(text)` for a delimiter pair: an opening delimiter with a
closing delimiter somewhere after it. -/
def hasDelimited (op cl : Char) : List Char → Bool
  | [] => false
  | c :: cs => if c = op then cs.contains cl else hasDelimited op cl cs

/-- Embeds `TextCleaner._remove_parentheses_content`. -/
def remove_parentheses_content (t : List Char) : List Char := removeDelimited '(' ')' t

/-- Embeds `TextCleaner._remove_bracket_content`. -/
def remove_bracket_content (t : List Char) : List Char := removeDelimited '[' ']' t

/-- Embeds `TextCleaner._remove_curly_bracket_content`. -/
def remove_curly_bracket_content (t : List Char) : List Char := removeDelimited '\x7b' '\x7d' t

/-- Embeds `TextCleaner._remove_hash_symbol_content`. -/
def remove_hash_symbol_content (t : List Char) : List Char := removeDelimited '#' '#' t

/-- Embeds `TextCleaner._remove_music_indication`: `text.replace('♪', '')`. -/
def remove_music_indication (t : List Char) : List Char := t.filter (fun c => c ≠ '♪')

/-- Split at the first colon: the text before it and the text after it. -/
def firstColonSplit : List Char → Option (List Char × List Char)
  | [] => none
  | c :: cs =>
    if c = ':' then some ([], cs)
    else (firstColonSplit cs).map (fun p => (c :: p.1, p.2))

/-- Whether the anchored regex `SPEAKER = ^\s*([^:\n]+?)\s*:` matches a string
whose first colon is preceded by `before`: `before` must decompose as
optional whitespace, a non-empty newline-free core (the group), and optional
whitespace.  Equivalently: `before` is non-empty, and either it has a
non-whitespace character and its stripped middle is newline-free, or it is
all whitespace containing some non-newline character. -/
def speakerCond (before : List Char) : Bool :=
  !before.isEmpty &&
    (if before.any (fun c => !isPySpace c) then (pyStrip before).all (fun c => c ≠ '\n')
     else before.any (fun c => c ≠ '\n'))

/-- Embeds `TextCleaner._remove_speaker_identification`: `SPEAKER.sub('', text)`.
The pattern is anchored at the start, so at most the span up to and including
the first colon is removed. -/
def remove_speaker_identification (t : List Char) : List Char :=
  match firstColonSplit t with
  | some (before, after) => if speakerCond before then after else t
  | none => t

/-- Embeds `group(1).strip()` of a `SPEAKER` match: the stripped text before the
first colon when it has a non-whitespace character, and empty when the
(lazy, backtracked) group captured only a whitespace character. -/
def speakerRawName (before : List Char) : List Char :=
  if before.any (fun c => !isPySpace c) then pyStrip before else []

/-- Embeds `LEADING_DASHES.match(text)`: the string starts with a dash character. -/
def leadingDash : List Char → Bool
  | [] => false
  | c :: _ => isDashChar c

/-- Embeds `LEADING_DASHES.sub('', text)`: the anchored pattern removes at most one
leading dash character. -/
def removeLeadingDash : List Char → List Char
  | [] => []
  | c :: cs => if isDashChar c then cs else c :: cs

/-- Embeds `MULTIPLE_SPACES.sub(' ', text)`: each maximal whitespace run becomes a
single space. -/
def collapseWS : List Char → List Char
  | [] => []
  | c :: cs =>
    if isPySpace c then
      match cs with
      | [] => [' ']
      | d :: _ => if isPySpace d then collapseWS cs else ' ' :: collapseWS cs
    else c :: collapseWS cs

/-- Embeds `re.sub(r'([\-\–\—])\s+', r'\1', line)`: whitespace directly following a
dash character is removed.  The flag is true while inside a removable
whitespace run. -/
def dashSpaceGo : Bool → List Char → List Char
  | _, [] => []
  | afterDash, c :: cs =>
    if afterDash && isPySpace c then dashSpaceGo true cs
    else c :: dashSpaceGo (isDashChar c) cs

def dashSpaceSub (l : List Char) : List Char := dashSpaceGo false l

/-- Whether the next non-whitespace character of `cs` exists and is
punctuation. -/
def wsThenPunct (cs : List Char) : Bool :=
  match cs.dropWhile isPySpace with
  | p :: _ => isPunctChar p
  | [] => false

/-- Embeds `SPACES_BEFORE_PUNCTUATION.sub(r'\1', line)`: a whitespace character is
dropped exactly when the whitespace run it belongs to is followed by a
punctuation character. -/
def spacePunctSub : List Char → List Char
  | [] => []
  | c :: cs =>
    (if isPySpace c && wsThenPunct cs then [] else [c]) ++ spacePunctSub cs

/-! ## Data model: `SubtitleStructure` and `Subtitle` -/

/-- Embeds `SubtitleStructure` dataclass.  The Python `set` of speaker names is a
de-duplicating list (membership and cardinality are all that is used). -/
structure SubtitleStructure where
  speakers : List (List Char)
  has_dashes : Bool
  has_parentheses : Bool
  has_brackets : Bool
  has_curly_brackets : Bool
  has_hash_content : Bool
  has_music : Bool
  line_count : Nat
deriving DecidableEq

def SubtitleStructure.speaker_count (s : SubtitleStructure) : Nat := s.speakers.length

def SubtitleStructure.has_speakers (s : SubtitleStructure) : Bool :=
  decide (0 < s.speaker_count)

/-- The default-constructed profile, with `line_count` already set as the
first statement of `_analyze_structure` does. -/
def SubtitleStructure.init (n : Nat) : SubtitleStructure :=
  ⟨[], false, false, false, false, false, false, n⟩

/-- Embeds `set.add`: insert a speaker name if it is not already present. -/
def SubtitleStructure.addSpeaker (s : SubtitleStructure) (name : List Char) :
    SubtitleStructure :=
  if name ∈ s.speakers then s else { s with speakers := s.speakers ++ [name] }

/-- Embeds `Subtitle` dataclass. -/
structure Subtitle where
  number : Int
  start_time : List Char
  end_time : List Char
  text : List Char
  original_text : List Char
  lines : List (List Char)
  «structure» : SubtitleStructure
deriving DecidableEq

/-- Embeds `TextCleaner._clean_speaker_name`: strip CC/SDH elements from a raw
speaker name (no dash and no speaker removal here). -/
def clean_speaker_name (raw : List Char) : List Char :=
  pyStrip (remove_music_indication (remove_hash_symbol_content
    (remove_curly_bracket_content (remove_bracket_content
      (remove_parentheses_content raw)))))

/-- The body of the per-line loop of `Subtitle._analyze_structure`. -/
def analyzeLine (st : SubtitleStructure) (line : List Char) : SubtitleStructure :=
  let ls := pyStrip line
  let st :=
    match firstColonSplit ls with
    | some (before, _) =>
      if speakerCond before then
        let name := clean_speaker_name (speakerRawName before)
        if !name.isEmpty then st.addSpeaker name else st
      else st
    | none => st
  { st with
    has_parentheses := st.has_parentheses || hasDelimited '(' ')' ls
    has_brackets := st.has_brackets || hasDelimited '[' ']' ls
    has_curly_brackets := st.has_curly_brackets || hasDelimited '\x7b' '\x7d' ls
    has_hash_content := st.has_hash_content || hasDelimited '#' '#' ls
    has_music := st.has_music || ls.contains '♪'
    has_dashes := st.has_dashes || leadingDash ls }

/-- Embeds `Subtitle._analyze_structure` over a list of lines. -/
def analyzeStructure (lines : List (List Char)) : SubtitleStructure :=
  lines.foldl analyzeLine (SubtitleStructure.init lines.length)

/-- Embeds `Subtitle(number, start, end, text)` through `__post_init__` with `lines`
and `original_text` taking their defaults: `lines = text.split('\n')`,
`original_text = text`, and the structure analyzed from `lines`. -/
def Subtitle.ofText (number : Int) (start_time end_time text : List Char) : Subtitle :=
  let lines := splitNL text
  ⟨number, start_time, end_time, text, text, lines, analyzeStructure lines⟩

/-- Embeds `Subtitle(number, start, end, text, lines=...)` through `__post_init__`
(`original_text` defaulted to `text`; an empty `lines` argument falls back to
`text.split('\n')` because an empty Python list is falsy). -/
def Subtitle.ofLines (number : Int) (start_time end_time text : List Char)
    (lines0 : List (List Char)) : Subtitle :=
  let lines := if lines0.isEmpty then splitNL text else lines0
  ⟨number, start_time, end_time, text, text, lines, analyzeStructure lines⟩

/-! ## `TextCleaner`: the cleaning pipeline -/

/-- Embeds `TextCleaner._clean_line`: the six pollution removers in source order,
then `strip()`. -/
def clean_line (line : List Char) : List Char :=
  pyStrip (remove_speaker_identification (remove_music_indication
    (remove_hash_symbol_content (remove_curly_bracket_content
      (remove_bracket_content (remove_parentheses_content line))))))

/-- The per-line body of the reformatting loop of
`TextCleaner._format_structure` (`stripped = line.strip()`,
`cleaned = LEADING_DASHES.sub('', stripped)` inlined). -/
def format_line (line : List Char) : List Char :=
  if (pyStrip line).isEmpty then []
  else if !(removeLeadingDash (pyStrip line)).isEmpty then
    '-' :: removeLeadingDash (pyStrip line)
  else pyStrip line

/-- The `should_format` decision of `TextCleaner._format_structure`. -/
def should_format (subtitle : Subtitle) (cleaned_lines : List (List Char)) : Bool :=
  decide (1 < subtitle.«structure».speaker_count) || subtitle.«structure».has_dashes ||
    cleaned_lines.any (fun line => !(pyStrip line).isEmpty && leadingDash (pyStrip line))

/-- Embeds `TextCleaner._format_structure` (with `cleaned_lines = cleaned_text.split('\n')`
inlined). -/
def format_structure (subtitle : Subtitle) (cleaned_text : List Char) : List Char :=
  if (pyStrip cleaned_text).isEmpty then cleaned_text
  else if should_format subtitle (splitNL cleaned_text) then
    joinNL ((splitNL cleaned_text).map format_line)
  else cleaned_text

/-- The per-line body of `TextCleaner._final_cleanup`: collapse whitespace,
strip, squeeze whitespace after dashes, drop whitespace before punctuation. -/
def cleanup_line (line : List Char) : List Char :=
  spacePunctSub (dashSpaceSub (pyStrip (collapseWS line)))

/-- Embeds `TextCleaner._final_cleanup`. -/
def final_cleanup (text : List Char) : List Char :=
  joinNL (((splitNL text).map cleanup_line).filter (fun l => !l.isEmpty))

/-- The surviving per-line-cleaned lines of `clean_subtitle` (lines whose
cleaned form still has content). -/
def survivors (subtitle : Subtitle) : List (List Char) :=
  (subtitle.lines.map clean_line).filter (fun l => !(pyStrip l).isEmpty)

/-- Embeds `TextCleaner.clean_subtitle`: per-line cleaning, reassembly, structural
reformatting, final cleanup; the result is a copy of the input with only
`text` and `lines` replaced (the structure profile is the input's). -/
def clean_subtitle (subtitle : Subtitle) : Subtitle :=
  let cleaned_text := joinNL (survivors subtitle)
  let formatted_text := format_structure subtitle cleaned_text
  let final_text := final_cleanup formatted_text
  { subtitle with text := final_text, lines := splitNL final_text }

/-! ## `SubtitleCleaner.parse_subtitles` -/

structure ParseState where
  current_number : Int
  current_start : List Char
  current_end : List Char
  current_text_lines : List (List Char)
  subtitles : List Subtitle
deriving DecidableEq

/-- Total stand-in for Python `int(...)`: meaningful exactly on strings of
decimal digits, where it returns the denoted number.  On the digit-class
characters that are not decimal digits Python `int` raises `ValueError`
instead; `parse_line_checked` below models that failure, and there the value
computed here is never used. -/
def natOfDigits (l : List Char) : Nat :=
  l.foldl (fun acc c => acc * 10 + (c.toNat - '0'.toNat)) 0

/-- The superscript and subscript digit characters.  They have Unicode
`Numeric_Type=Digit`, so Python `str.isdigit()` accepts them, yet `int`
rejects them with a `ValueError`. -/
def isSuperSubDigit (c : Char) : Bool :=
  decide (c ∈ ['⁰', '¹', '²', '³', '⁴', '⁵', '⁶', '⁷', '⁸', '⁹',
               '₀', '₁', '₂', '₃', '₄', '₅', '₆', '₇', '₈', '₉'])

/-- The digit-class characters of Python `str.isdigit()`, over the character
repertoire of this embedding: the ASCII decimal digits (on which `int`
succeeds) together with the superscript and subscript digits (on which `int`
raises).  Every other Unicode numeral behaves like one of these two classes
and is outside the repertoire of the model. -/
def pyIsDigit (c : Char) : Bool := c.isDigit || isSuperSubDigit c

/-- Python `str.isdigit()` (non-empty, all digit-class characters). -/
def isDigitLine (l : List Char) : Bool := !l.isEmpty && l.all pyIsDigit

/-- Python `'-->' in line`: some position starts the three characters
`-`, `-`, `>`. -/
def containsArrow : List Char → Bool
  | c1 :: c2 :: c3 :: rest =>
    (decide (c1 = '-') && decide (c2 = '-') && decide (c3 = '>')) ||
      containsArrow (c2 :: c3 :: rest)
  | _ => false

/-- Python `line.split('-->')`. -/
def splitArrow : List Char → List (List Char)
  | [] => [[]]
  | '-' :: '-' :: '>' :: rest => [] :: splitArrow rest
  | c :: cs =>
    match splitArrow cs with
    | l :: ls => (c :: l) :: ls
    | [] => [[c]]

/-- The flush performed on a blank line (and at end of input): emit a caption
only when a number has been seen and text lines were accumulated.  The
pending timestamps are NOT reset. -/
def flushState (s : ParseState) : ParseState :=
  if 0 < s.current_number ∧ s.current_text_lines ≠ [] then
    { s with
      subtitles := s.subtitles ++
        [Subtitle.ofLines s.current_number s.current_start s.current_end
          (joinNL s.current_text_lines) s.current_text_lines],
      current_text_lines := [], current_number := 0 }
  else s

/-- The body of one iteration of the `while` loop of
`SubtitleCleaner.parse_subtitles`, applied to the already-`rstrip`ped line. -/
def parse_line_core (s : ParseState) (line : List Char) : ParseState :=
  if (pyStrip line).isEmpty then flushState s
  else if isDigitLine line && s.current_text_lines.isEmpty then
    { s with current_number := (natOfDigits line : Int) }
  else if containsArrow line && decide (0 < s.current_number) then
    match splitArrow line with
    | [a, b] => { s with current_start := pyStrip a, current_end := pyStrip b }
    | _ => s
  else if 0 < s.current_number then
    { s with current_text_lines := s.current_text_lines ++ [line] }
  else s

/-- One iteration of the `while` loop of `SubtitleCleaner.parse_subtitles`:
`line = self.original_content[i].rstrip('\n\r')`, then the branch ladder. -/
def parse_line (s : ParseState) (raw : List Char) : ParseState :=
  parse_line_core s (rstripNLCR raw)

/-- Embeds `SubtitleCleaner.parse_subtitles` over the raw file lines.  This
function is total: on a line where `line.isdigit()` holds but `int(line)`
raises `ValueError` (a superscript or subscript digit line opening a block)
the Python loop aborts with an exception, so this function's value on such
inputs is immaterial; `parse_subtitles_checked` below marks exactly those
runs with `none` and agrees with this function on all others. -/
def parse_subtitles (original_content : List (List Char)) : List Subtitle :=
  (flushState (original_content.foldl parse_line ⟨0, [], [], [], []⟩)).subtitles

/-- One iteration of the `while` loop of `SubtitleCleaner.parse_subtitles`
with the `int(line)` call modelled as fallible: the result is `none` in the
one case where Python raises, namely `line.isdigit()` true on a line whose
characters are not all decimal digits (e.g. a superscript digit). -/
def parse_line_checked (s : ParseState) (raw : List Char) : Option ParseState :=
  if (pyStrip (rstripNLCR raw)).isEmpty then some (flushState s)
  else if isDigitLine (rstripNLCR raw) && s.current_text_lines.isEmpty then
    if (rstripNLCR raw).all Char.isDigit then
      some { s with current_number := (natOfDigits (rstripNLCR raw) : Int) }
    else none
  else if containsArrow (rstripNLCR raw) && decide (0 < s.current_number) then
    match splitArrow (rstripNLCR raw) with
    | [a, b] => some { s with current_start := pyStrip a, current_end := pyStrip b }
    | _ => some s
  else if 0 < s.current_number then
    some { s with current_text_lines := s.current_text_lines ++ [rstripNLCR raw] }
  else some s

/-- Embeds `SubtitleCleaner.parse_subtitles` with the `ValueError` of
`int(line)` made explicit: `none` exactly when the Python run raises. -/
def parse_subtitles_checked (original_content : List (List Char)) :
    Option (List Subtitle) :=
  (original_content.foldlM parse_line_checked ⟨0, [], [], [], []⟩).map
    (fun s => (flushState s).subtitles)

/-! ## Proof scaffolding: normal-form invariants of cleaned lines

These predicates are not part of the source; they describe the shape of the
lines `_final_cleanup` produces and are used to prove that a second cleanup
pass is the identity. -/

/-- No two adjacent whitespace characters. -/
def noWW (a b : Char) : Prop := ¬(isPySpace a = true ∧ isPySpace b = true)

/-- No whitespace right after a dash. -/
def noDW (a b : Char) : Prop := ¬(isDashChar a = true ∧ isPySpace b = true)

/-- No whitespace right before punctuation. -/
def noWP (a b : Char) : Prop := ¬(isPySpace a = true ∧ isPunctChar b = true)

/-- The conditions an adjacent pair of characters satisfies after
`_final_cleanup`: no two adjacent whitespace characters, no whitespace right
after a dash, no whitespace right before punctuation. -/
def okPair (a b : Char) : Prop := noWW a b ∧ noDW a b ∧ noWP a b

/-- The normal form of a `_final_cleanup` output line: every whitespace
character is a plain space, adjacent pairs satisfy `okPair`, and the line
neither starts nor ends with whitespace. -/
def NormLine (l : List Char) : Prop :=
  (∀ c ∈ l, isPySpace c = true → c = ' ') ∧
  List.Chain' okPair l ∧
  (∀ c, l.head? = some c → isPySpace c = false) ∧
  (∀ c, l.getLast? = some c → isPySpace c = false)

/-- Soundness facts about every caption the parser emits. -/
def GoodSub (s : Subtitle) : Prop :=
  s.text = joinNL s.lines ∧ 0 < s.number ∧ s.lines ≠ [] ∧ ∀ l ∈ s.lines, pyStrip l ≠ []

/-- Parser-state invariant: accumulated text lines are non-blank and the
captions emitted so far are sound. -/
def StOk (s : ParseState) : Prop :=
  (∀ l ∈ s.current_text_lines, pyStrip l ≠ []) ∧ ∀ sub ∈ s.subtitles, GoodSub sub

/-! ## Basic lemmas: `splitNL`, `joinNL`, `pyStrip` -/

theorem splitNL_ne_nil (t : List Char) : splitNL t ≠ [] := by
  induction t with
  | nil => simp [splitNL]
  | cons c cs ih =>
    simp only [splitNL]
    split
    · simp
    · split <;> simp

theorem joinNL_splitNL (t : List Char) : joinNL (splitNL t) = t := by
  induction t with
  | nil => rfl
  | cons c cs ih =>
    simp only [splitNL]
    split
    · rename_i hc
      cases hs : splitNL cs with
      | nil => exact absurd hs (splitNL_ne_nil cs)
      | cons l ls =>
        rw [hs] at ih
        simp only [joinNL, hc]
        simpa using ih
    · cases hs : splitNL cs with
      | nil => exact absurd hs (splitNL_ne_nil cs)
      | cons l ls =>
        rw [hs] at ih
        cases ls with
        | nil => simpa [joinNL] using congrArg (c :: ·) ih
        | cons l2 ls2 => simpa [joinNL] using congrArg (c :: ·) ih

theorem splitNL_no_newline (t : List Char) : ∀ l ∈ splitNL t, '\n' ∉ l := by
  induction t with
  | nil => simp [splitNL]
  | cons c cs ih =>
    simp only [splitNL]
    split
    · intro l hl
      rcases List.mem_cons.mp hl with h | h
      · simp [h]
      · exact ih l h
    · rename_i hc
      cases hs : splitNL cs with
      | nil => exact absurd hs (splitNL_ne_nil cs)
      | cons x xs =>
        rw [hs] at ih
        intro l hl
        rcases List.mem_cons.mp hl with h | h
        · subst h
          intro hmem
          rcases List.mem_cons.mp hmem with h | h
          · exact hc h.symm
          · exact ih x (List.mem_cons_self _ _) h
        · exact ih l (List.mem_cons_of_mem _ h)

theorem splitNL_single (l : List Char) (h : '\n' ∉ l) : splitNL l = [l] := by
  induction l with
  | nil => rfl
  | cons c cs ih =>
    have hc : ¬(c = '\n') := fun hc => h (hc ▸ List.mem_cons_self _ _)
    have ih' := ih (fun hm => h (List.mem_cons_of_mem _ hm))
    simp only [splitNL, if_neg hc, ih']

theorem splitNL_append_cons (l t : List Char) (h : '\n' ∉ l) :
    splitNL (l ++ '\n' :: t) = l :: splitNL t := by
  induction l with
  | nil => simp [splitNL]
  | cons c cs ih =>
    have hc : ¬(c = '\n') := fun hc => h (hc ▸ List.mem_cons_self _ _)
    have ih' := ih (fun hm => h (List.mem_cons_of_mem _ hm))
    simp only [List.cons_append, splitNL, if_neg hc, List.append_eq, ih']

theorem splitNL_joinNL (L : List (List Char)) (hne : L ≠ [])
    (hnl : ∀ l ∈ L, '\n' ∉ l) : splitNL (joinNL L) = L := by
  induction L with
  | nil => exact absurd rfl hne
  | cons l ls ih =>
    cases ls with
    | nil => exact splitNL_single l (hnl l (List.mem_cons_self _ _))
    | cons l2 ls2 =>
      have : joinNL (l :: l2 :: ls2) = l ++ '\n' :: joinNL (l2 :: ls2) := rfl
      rw [this, splitNL_append_cons l _ (hnl l (List.mem_cons_self _ _))]
      rw [ih (by simp) (fun x hx => hnl x (List.mem_cons_of_mem _ hx))]

theorem mem_joinNL {a : Char} {L : List (List Char)} {l : List Char}
    (hl : l ∈ L) (ha : a ∈ l) : a ∈ joinNL L := by
  induction L with
  | nil => cases hl
  | cons x xs ih =>
    rcases List.mem_cons.mp hl with h | h
    · subst h
      cases xs with
      | nil => exact ha
      | cons y ys => exact List.mem_append.mpr (Or.inl ha)
    · cases xs with
      | nil => cases h
      | cons y ys =>
        exact List.mem_append.mpr (Or.inr (List.mem_cons_of_mem _ (ih h)))

theorem pyStrip_sublist (l : List Char) : (pyStrip l).Sublist l := by
  have h1 : (l.dropWhile isPySpace).Sublist l := (List.dropWhile_suffix _).sublist
  have h2 : ((l.dropWhile isPySpace).reverse.dropWhile isPySpace).Sublist
      (l.dropWhile isPySpace).reverse := (List.dropWhile_suffix _).sublist
  have h3 := h2.reverse
  rw [List.reverse_reverse] at h3
  exact (h3.trans h1)

theorem mem_dropWhile_of_not {p : Char → Bool} {c : Char} {l : List Char}
    (hc : c ∈ l) (hp : p c = false) : c ∈ l.dropWhile p := by
  induction l with
  | nil => cases hc
  | cons x xs ih =>
    rw [List.dropWhile_cons]
    rcases List.mem_cons.mp hc with h | h
    · subst h
      simp [hp]
    · split
      · exact ih h
      · exact List.mem_cons_of_mem _ h

theorem mem_pyStrip_of_not {c : Char} {l : List Char}
    (hc : c ∈ l) (hp : isPySpace c = false) : c ∈ pyStrip l := by
  have h1 : c ∈ l.dropWhile isPySpace := mem_dropWhile_of_not hc hp
  have h2 : c ∈ (l.dropWhile isPySpace).reverse := List.mem_reverse.mpr h1
  have h3 := mem_dropWhile_of_not h2 hp
  exact List.mem_reverse.mpr h3

theorem pyStrip_eq_nil_iff (l : List Char) :
    pyStrip l = [] ↔ ∀ c ∈ l, isPySpace c = true := by
  constructor
  · intro h c hc
    by_contra hws
    have := mem_pyStrip_of_not hc (Bool.not_eq_true _ ▸ hws)
    rw [h] at this
    cases this
  · intro h
    have h1 : l.dropWhile isPySpace = [] := List.dropWhile_eq_nil_iff.mpr h
    simp [pyStrip, h1]

theorem head?_dropWhile_not {p : Char → Bool} {l : List Char} {c : Char}
    (h : (l.dropWhile p).head? = some c) : p c = false := by
  induction l with
  | nil => simp [List.dropWhile] at h
  | cons x xs ih =>
    rw [List.dropWhile_cons] at h
    split at h
    · exact ih h
    · rename_i hx
      simp only [List.head?] at h
      cases h
      simpa using hx

theorem suffix_getLast? {l₁ l₂ : List Char} (h : l₁ <:+ l₂) (hne : l₁ ≠ []) :
    l₁.getLast? = l₂.getLast? := by
  obtain ⟨p, rfl⟩ := h
  rw [List.getLast?_append]
  cases hl : l₁.getLast? with
  | none => exact absurd (List.getLast?_eq_none_iff.mp hl) hne
  | some c => rfl

theorem pyStrip_getLast_not_ws {l : List Char} {c : Char}
    (h : (pyStrip l).getLast? = some c) : isPySpace c = false := by
  unfold pyStrip at h
  rw [List.getLast?_reverse] at h
  exact head?_dropWhile_not h

theorem pyStrip_head_not_ws {l : List Char} {c : Char}
    (h : (pyStrip l).head? = some c) : isPySpace c = false := by
  unfold pyStrip at h
  rw [List.head?_reverse] at h
  have hne : (l.dropWhile isPySpace).reverse.dropWhile isPySpace ≠ [] := by
    intro h0
    rw [h0] at h
    cases h
  rw [suffix_getLast? (List.dropWhile_suffix _) hne, List.getLast?_reverse] at h
  exact head?_dropWhile_not h

theorem pyStrip_eq_self {l : List Char}
    (hh : ∀ c, l.head? = some c → isPySpace c = false)
    (hl : ∀ c, l.getLast? = some c → isPySpace c = false) : pyStrip l = l := by
  have h1 : l.dropWhile isPySpace = l := by
    cases l with
    | nil => rfl
    | cons x xs =>
      have := hh x rfl
      simp [List.dropWhile_cons, this]
  have h2 : l.reverse.dropWhile isPySpace = l.reverse := by
    cases hr : l.reverse with
    | nil => rfl
    | cons x xs =>
      have hx : l.getLast? = some x := by
        rw [List.getLast?_eq_head?_reverse, hr]
        rfl
      have := hl x hx
      simp [List.dropWhile_cons, this]
  unfold pyStrip
  rw [h1, h2, List.reverse_reverse]

theorem pyStrip_idem (l : List Char) : pyStrip (pyStrip l) = pyStrip l :=
  pyStrip_eq_self (fun _ h => pyStrip_head_not_ws h) (fun _ h => pyStrip_getLast_not_ws h)

theorem clean_line_stripped (l : List Char) : pyStrip (clean_line l) = clean_line l := by
  unfold clean_line
  exact pyStrip_idem _

/-! ## Sublist lemmas: the cleaners only delete characters -/

theorem removeDelimitedGo_sublist (op cl : Char) :
    ∀ (l : List Char) (buf : List Char),
      (removeDelimitedGo op cl none l).Sublist l ∧
      (removeDelimitedGo op cl (some buf) l).Sublist ((op :: buf.reverse) ++ l) := by
  intro l
  induction l with
  | nil =>
    intro buf
    exact ⟨List.Sublist.refl _, by simp [removeDelimitedGo]⟩
  | cons c cs ih =>
    intro buf
    constructor
    · simp only [removeDelimitedGo]
      split
      · rename_i hc
        subst hc
        exact (ih []).2
      · exact List.Sublist.cons₂ c (ih []).1
    · simp only [removeDelimitedGo]
      split
      · refine ((ih []).1.trans ?_)
        exact (List.sublist_cons_self c cs).trans (List.sublist_append_right _ _)
      · have h := (ih (c :: buf)).2
        have hsh : (op :: (c :: buf).reverse) ++ cs = (op :: buf.reverse) ++ c :: cs := by
          simp
        rw [hsh] at h
        exact h

theorem removeDelimited_sublist (op cl : Char) (l : List Char) :
    (removeDelimited op cl l).Sublist l :=
  (removeDelimitedGo_sublist op cl l []).1

theorem firstColonSplit_eq : ∀ {l b a : List Char}, firstColonSplit l = some (b, a) →
    l = b ++ ':' :: a ∧ ':' ∉ b := by
  intro l
  induction l with
  | nil => intro b a h; simp [firstColonSplit] at h
  | cons c cs ih =>
    intro b a h
    simp only [firstColonSplit] at h
    split at h
    · rename_i hc
      subst hc
      simp only [Option.some_inj, Prod.mk.injEq] at h
      obtain ⟨hb, ha⟩ := h
      subst hb; subst ha
      simp
    · rename_i hc
      cases hcs : firstColonSplit cs with
      | none => rw [hcs] at h; simp at h
      | some p =>
        rw [hcs] at h
        obtain ⟨b', a'⟩ := p
        simp only [Option.map_some', Option.some_inj, Prod.mk.injEq] at h
        obtain ⟨hb, ha⟩ := h
        obtain ⟨h1, h2⟩ := ih hcs
        subst ha
        rw [← hb]
        subst h1
        constructor
        · simp
        · intro hmem
          rcases List.mem_cons.mp hmem with h | h
          · exact hc h.symm
          · exact h2 h

theorem remove_speaker_sublist (l : List Char) :
    (remove_speaker_identification l).Sublist l := by
  unfold remove_speaker_identification
  cases h : firstColonSplit l with
  | none => exact List.Sublist.refl l
  | some p =>
    obtain ⟨before, after⟩ := p
    dsimp only
    by_cases hc : speakerCond before = true
    · rw [if_pos hc]
      obtain ⟨h1, _⟩ := firstColonSplit_eq h
      rw [h1]
      exact List.Sublist.trans (List.sublist_cons_self ':' after)
        (List.sublist_append_right _ _)
    · rw [if_neg hc]

theorem clean_line_sublist (l : List Char) : (clean_line l).Sublist l := by
  unfold clean_line remove_music_indication
  refine (pyStrip_sublist _).trans ?_
  refine (remove_speaker_sublist _).trans ?_
  refine (List.filter_sublist _).trans ?_
  refine (removeDelimited_sublist _ _ _).trans ?_
  refine (removeDelimited_sublist _ _ _).trans ?_
  refine (removeDelimited_sublist _ _ _).trans ?_
  exact removeDelimited_sublist _ _ _

theorem not_mem_clean_line {a : Char} {l : List Char} (h : a ∉ l) :
    a ∉ clean_line l :=
  fun hmem => h ((clean_line_sublist l).subset hmem)

/-! ## Survivor lines -/

theorem mem_survivors {subtitle : Subtitle} {l : List Char} (h : l ∈ survivors subtitle) :
    pyStrip l = l ∧ l ≠ [] ∧ ∃ l0 ∈ subtitle.lines, clean_line l0 = l := by
  unfold survivors at h
  obtain ⟨hmem, hne⟩ := List.mem_filter.mp h
  obtain ⟨l0, hl0, rfl⟩ := List.mem_map.mp hmem
  have hne' : pyStrip (clean_line l0) ≠ [] := by simpa using hne
  rw [clean_line_stripped l0] at hne'
  exact ⟨clean_line_stripped l0, hne', l0, hl0, rfl⟩

/-- The cleaned caption keeps the input's structural profile (the record
update in `clean_subtitle` touches only `text` and `lines`). -/
theorem clean_subtitle_structure (c : Subtitle) :
    (clean_subtitle c).«structure» = c.«structure» := rfl

theorem clean_subtitle_text (c : Subtitle) :
    (clean_subtitle c).text
      = final_cleanup (format_structure c (joinNL (survivors c))) := rfl

theorem clean_subtitle_lines (c : Subtitle) :
    (clean_subtitle c).lines = splitNL ((clean_subtitle c).text) := rfl

/-! ## Parser soundness -/

theorem ofLines_good {n : Int} (hn : 0 < n) (a b : List Char) {L : List (List Char)}
    (hL : L ≠ []) (hblank : ∀ l ∈ L, pyStrip l ≠ []) :
    GoodSub (Subtitle.ofLines n a b (joinNL L) L) := by
  have hE : L.isEmpty = false := List.isEmpty_eq_false.mpr hL
  unfold Subtitle.ofLines GoodSub
  simp only [hE, Bool.false_eq_true, if_false]
  exact ⟨trivial, hn, hL, hblank⟩

theorem flushState_ok {s : ParseState} (h : StOk s) : StOk (flushState s) := by
  unfold flushState
  split
  · rename_i hcond
    obtain ⟨h1, h2⟩ := h
    constructor
    · intro l hl
      cases hl
    · intro sub hsub
      rcases List.mem_append.mp hsub with hm | hm
      · exact h2 sub hm
      · rw [List.mem_singleton] at hm
        subst hm
        exact ofLines_good hcond.1 _ _ hcond.2 h1
  · exact h

theorem parse_line_core_ok {s : ParseState} (h : StOk s) (line : List Char) :
    StOk (parse_line_core s line) := by
  unfold parse_line_core
  split
  · exact flushState_ok h
  · rename_i hblank
    split
    · exact h
    · split
      · split
        · exact h
        · exact h
      · split
        · obtain ⟨h1, h2⟩ := h
          refine ⟨?_, h2⟩
          intro l hl
          rcases List.mem_append.mp hl with hm | hm
          · exact h1 l hm
          · rw [List.mem_singleton] at hm
            subst hm
            intro h0
            exact hblank (by simp [h0])
        · exact h

theorem parse_line_ok {s : ParseState} (h : StOk s) (raw : List Char) :
    StOk (parse_line s raw) :=
  parse_line_core_ok h _

theorem foldl_parse_ok (content : List (List Char)) {s : ParseState} (h : StOk s) :
    StOk (content.foldl parse_line s) := by
  induction content generalizing s with
  | nil => exact h
  | cons x xs ih => exact ih (parse_line_ok h x)

/-- Every caption emitted by the parser satisfies `GoodSub`. -/
theorem parse_sound (content : List (List Char)) :
    ∀ sub ∈ parse_subtitles content, GoodSub sub := by
  have h0 : StOk ⟨0, [], [], [], []⟩ := ⟨fun l hl => absurd hl (by simp), fun s hs => absurd hs (by simp)⟩
  exact (flushState_ok (foldl_parse_ok content h0)).2

/-! ## Timestamp-line facts for the parser -/

theorem mem_gt_of_containsArrow : ∀ (l : List Char), containsArrow l = true → '>' ∈ l := by
  intro l
  induction l with
  | nil => intro h; simp [containsArrow] at h
  | cons c1 cs ih =>
    intro h
    match cs, h with
    | [], h => simp [containsArrow] at h
    | [c2], h => simp [containsArrow] at h
    | c2 :: c3 :: rest, h =>
      rw [containsArrow] at h
      rcases Bool.or_eq_true_iff.mp h with h | h
      · have h3 : c3 = '>' := by
          have := (Bool.and_eq_true_iff.mp h).2
          simpa using this
        subst h3
        simp
      · exact List.mem_cons_of_mem _ (ih h)

theorem pyStrip_ne_nil_of_containsArrow {l : List Char} (h : containsArrow l = true) :
    pyStrip l ≠ [] :=
  List.ne_nil_of_mem (mem_pyStrip_of_not (mem_gt_of_containsArrow l h) (by decide))

theorem isDigitLine_false_of_containsArrow {l : List Char} (h : containsArrow l = true) :
    isDigitLine l = false := by
  have hm := mem_gt_of_containsArrow l h
  unfold isDigitLine
  cases hall : l.all pyIsDigit with
  | false => simp
  | true =>
    have := List.all_eq_true.mp hall '>' hm
    exact absurd this (by decide)

/-! ## Agreement of the checked parser with the total parser -/

theorem parse_line_checked_agrees {s s' : ParseState} {raw : List Char}
    (h : parse_line_checked s raw = some s') : parse_line s raw = s' := by
  unfold parse_line parse_line_core
  unfold parse_line_checked at h
  by_cases h1 : (pyStrip (rstripNLCR raw)).isEmpty = true
  · rw [if_pos h1] at h
    rw [if_pos h1]
    exact Option.some_inj.mp h
  · rw [if_neg h1] at h ⊢
    by_cases h2 : (isDigitLine (rstripNLCR raw) && s.current_text_lines.isEmpty) = true
    · rw [if_pos h2] at h ⊢
      by_cases h3 : (rstripNLCR raw).all Char.isDigit = true
      · rw [if_pos h3] at h
        exact Option.some_inj.mp h
      · rw [if_neg h3] at h
        cases h
    · rw [if_neg h2] at h ⊢
      by_cases h4 : (containsArrow (rstripNLCR raw) && decide (0 < s.current_number)) = true
      · rw [if_pos h4] at h ⊢
        rcases hsp : splitArrow (rstripNLCR raw) with - | ⟨a, - | ⟨b, - | ⟨c3, rest⟩⟩⟩ <;>
          rw [hsp] at h <;> exact Option.some_inj.mp h
      · rw [if_neg h4] at h ⊢
        by_cases h5 : 0 < s.current_number
        · rw [if_pos h5] at h
          rw [if_pos h5]
          exact Option.some_inj.mp h
        · rw [if_neg h5] at h
          rw [if_neg h5]
          exact Option.some_inj.mp h

theorem foldlM_checked_agrees (content : List (List Char)) :
    ∀ (s s' : ParseState), content.foldlM parse_line_checked s = some s' →
      content.foldl parse_line s = s' := by
  induction content with
  | nil =>
    intro s s' h
    simpa [List.foldlM] using h
  | cons x xs ih =>
    intro s s' h
    rw [List.foldlM_cons] at h
    cases hx : parse_line_checked s x with
    | none =>
      rw [hx] at h
      simp at h
    | some s1 =>
      rw [hx] at h
      simp only [Option.bind_eq_bind, Option.some_bind] at h
      rw [List.foldl_cons, parse_line_checked_agrees hx]
      exact ih s1 s' h

theorem parse_subtitles_checked_agrees {content : List (List Char)}
    {out : List Subtitle} (h : parse_subtitles_checked content = some out) :
    out = parse_subtitles content := by
  unfold parse_subtitles_checked at h
  cases hf : content.foldlM parse_line_checked ⟨0, [], [], [], []⟩ with
  | none =>
    rw [hf] at h
    cases h
  | some s =>
    rw [hf] at h
    unfold parse_subtitles
    rw [foldlM_checked_agrees content _ s hf]
    simpa using h.symm

/-! ## Facts used by the reformatting-decision claim -/

theorem exists_nonws_of_stripped {l : List Char} (hs : pyStrip l = l) (hne : l ≠ []) :
    ∃ c ∈ l, isPySpace c = false := by
  by_contra h
  push_neg at h
  have h0 : pyStrip l = [] := (pyStrip_eq_nil_iff l).mpr (fun c hc => by
    have := h c hc
    simpa using this)
  rw [hs] at h0
  exact hne h0

theorem pyStrip_joinNL_ne_nil {L : List (List Char)} (hne : L ≠ [])
    (h : ∀ l ∈ L, pyStrip l = l ∧ l ≠ []) : pyStrip (joinNL L) ≠ [] := by
  obtain ⟨l, hl⟩ : ∃ l, l ∈ L := by
    cases L with
    | nil => exact absurd rfl hne
    | cons x xs => exact ⟨x, List.mem_cons_self x xs⟩
  obtain ⟨c, hc, hcw⟩ := exists_nonws_of_stripped (h l hl).1 (h l hl).2
  intro h0
  have := (pyStrip_eq_nil_iff _).mp h0 c (mem_joinNL hl hc)
  rw [this] at hcw
  cases hcw

theorem mem_survivors_stripped {c : Subtitle} :
    ∀ l ∈ survivors c, pyStrip l = l ∧ l ≠ [] :=
  fun _ hl => ⟨(mem_survivors hl).1, (mem_survivors hl).2.1⟩

theorem mem_survivors_no_newline {c : Subtitle} (hnl : ∀ l ∈ c.lines, '\n' ∉ l) :
    ∀ l ∈ survivors c, '\n' ∉ l := by
  intro l hl
  obtain ⟨-, -, l0, hl0, rfl⟩ := mem_survivors hl
  exact not_mem_clean_line (hnl l0 hl0)

theorem should_format_iff (c : Subtitle) {S : List (List Char)}
    (h : ∀ l ∈ S, pyStrip l = l ∧ l ≠ []) :
    should_format c S = true ↔
      (1 < c.«structure».speaker_count ∨ c.«structure».has_dashes = true ∨
        ∃ l ∈ S, leadingDash (pyStrip l) = true) := by
  unfold should_format
  rw [Bool.or_eq_true, Bool.or_eq_true, decide_eq_true_iff, List.any_eq_true]
  constructor
  · rintro ((h1 | h1) | ⟨l, hl, h2⟩)
    · exact Or.inl h1
    · exact Or.inr (Or.inl h1)
    · exact Or.inr (Or.inr ⟨l, hl, (Bool.and_eq_true_iff.mp h2).2⟩)
  · rintro (h1 | h1 | ⟨l, hl, h2⟩)
    · exact Or.inl (Or.inl h1)
    · exact Or.inl (Or.inr h1)
    · refine Or.inr ⟨l, hl, Bool.and_eq_true_iff.mpr ⟨?_, h2⟩⟩
      rw [(h l hl).1]
      simpa using List.isEmpty_eq_false.mpr (h l hl).2

theorem format_line_stripped_eq {l : List Char} (hs : pyStrip l = l) (hne : l ≠ []) :
    format_line l =
      if removeLeadingDash (pyStrip l) ≠ [] then '-' :: removeLeadingDash (pyStrip l)
      else pyStrip l := by
  unfold format_line
  rw [hs]
  rw [if_neg (by simpa using List.isEmpty_eq_false.mpr hne)]
  by_cases hrd : removeLeadingDash l = []
  · rw [if_neg (by simp [hrd]), if_neg (by simp [hrd])]
  · rw [if_pos (by simpa using List.isEmpty_eq_false.mpr hrd), if_pos hrd]

/-! ## Normal-form development for `_final_cleanup`

`_final_cleanup` is idempotent at the line level.  We prove that each output
line is in `NormLine` normal form and that every stage of `cleanup_line` is
the identity on normal-form lines. -/

theorem dashChar_not_ws {c : Char} (h : isDashChar c = true) : isPySpace c = false := by
  unfold isDashChar at h
  simp only [Bool.or_eq_true, decide_eq_true_iff] at h
  rcases h with (h | h) | h <;> (subst h; decide)

theorem punctChar_not_ws {c : Char} (h : isPunctChar c = true) : isPySpace c = false := by
  unfold isPunctChar at h
  simp only [Bool.or_eq_true, decide_eq_true_iff] at h
  rcases h with ((((h | h) | h) | h) | h) | h <;> (subst h; decide)

theorem collapseWS_cons_nonws {c : Char} (cs : List Char) (h : isPySpace c = false) :
    collapseWS (c :: cs) = c :: collapseWS cs := by
  simp [collapseWS, h]

theorem collapseWS_ws_space :
    ∀ (l : List Char), ∀ c ∈ collapseWS l, isPySpace c = true → c = ' '
  | [] => by simp [collapseWS]
  | c :: cs => by
    intro x hx hws
    by_cases hc : isPySpace c = true
    · cases cs with
      | nil =>
        simp [collapseWS, hc] at hx
        subst hx; rfl
      | cons d cs' =>
        by_cases hd : isPySpace d = true
        · rw [show collapseWS (c :: d :: cs') = collapseWS (d :: cs') by
            simp [collapseWS, hc, hd]] at hx
          exact collapseWS_ws_space (d :: cs') x hx hws
        · rw [show collapseWS (c :: d :: cs') = ' ' :: collapseWS (d :: cs') by
            simp [collapseWS, hc, hd]] at hx
          rcases List.mem_cons.mp hx with h | h
          · subst h; rfl
          · exact collapseWS_ws_space (d :: cs') x h hws
    · rw [collapseWS_cons_nonws cs (by simpa using hc)] at hx
      rcases List.mem_cons.mp hx with h | h
      · subst h
        exact absurd hws (by simpa using hc)
      · exact collapseWS_ws_space cs x h hws

theorem collapseWS_chain : ∀ (l : List Char), List.Chain' noWW (collapseWS l)
  | [] => by simp [collapseWS]
  | [c] => by
    by_cases h : isPySpace c = true <;>
      simp [collapseWS, h, List.chain'_singleton]
  | c :: d :: cs => by
    by_cases hc : isPySpace c = true
    · by_cases hd : isPySpace d = true
      · rw [show collapseWS (c :: d :: cs) = collapseWS (d :: cs) by
          simp [collapseWS, hc, hd]]
        exact collapseWS_chain (d :: cs)
      · rw [show collapseWS (c :: d :: cs) = ' ' :: collapseWS (d :: cs) by
          simp [collapseWS, hc, hd]]
        rw [collapseWS_cons_nonws cs (by simpa using hd)]
        refine List.chain'_cons.mpr ⟨?_, ?_⟩
        · exact fun hpair => absurd hpair.2 (by simpa using hd)
        · rw [← collapseWS_cons_nonws cs (by simpa using hd)]
          exact collapseWS_chain (d :: cs)
    · rw [collapseWS_cons_nonws _ (by simpa using hc)]
      refine List.chain'_cons'.mpr ⟨?_, collapseWS_chain (d :: cs)⟩
      intro y _
      exact fun hpair => absurd hpair.1 (by simpa using hc)

theorem chain_pyStrip {R : Char → Char → Prop} {l : List Char}
    (h : List.Chain' R l) : List.Chain' R (pyStrip l) := by
  have h1 : List.Chain' R (l.dropWhile isPySpace) := h.suffix (List.dropWhile_suffix _)
  have h2 : List.Chain' (flip R) (l.dropWhile isPySpace).reverse :=
    List.chain'_reverse.mpr h1
  have h3 : List.Chain' (flip R) ((l.dropWhile isPySpace).reverse.dropWhile isPySpace) :=
    h2.suffix (List.dropWhile_suffix _)
  exact List.chain'_reverse.mpr h3

theorem filter_nonws_dropWhile (l : List Char) :
    (l.dropWhile isPySpace).filter (fun c => !isPySpace c) =
      l.filter (fun c => !isPySpace c) := by
  induction l with
  | nil => rfl
  | cons c cs ih =>
    rw [List.dropWhile_cons]
    split
    · rename_i hc
      rw [ih]
      simp [List.filter_cons, hc]
    · rfl

theorem pyStrip_filter_nonws (l : List Char) :
    (pyStrip l).filter (fun c => !isPySpace c) = l.filter (fun c => !isPySpace c) := by
  unfold pyStrip
  rw [List.filter_reverse, filter_nonws_dropWhile, List.filter_reverse,
    filter_nonws_dropWhile, List.reverse_reverse]

theorem getLast?_cons_ne_nil {c : Char} {X : List Char} (h : X ≠ []) :
    (c :: X).getLast? = X.getLast? := by
  cases X with
  | nil => exact absurd rfl h
  | cons y ys => exact List.getLast?_cons_cons

theorem dashSpaceGo_cons (b : Bool) (c : Char) (cs : List Char) :
    dashSpaceGo b (c :: cs) =
      if (b && isPySpace c) = true then dashSpaceGo true cs
      else c :: dashSpaceGo (isDashChar c) cs := rfl

theorem dashSpaceGo_sublist : ∀ (l : List Char) (b : Bool), (dashSpaceGo b l).Sublist l
  | [], _ => List.Sublist.refl _
  | c :: cs, b => by
    simp only [dashSpaceGo]
    split
    · exact List.Sublist.cons c (dashSpaceGo_sublist cs true)
    · exact List.Sublist.cons₂ c (dashSpaceGo_sublist cs (isDashChar c))

theorem dashSpaceGo_filter : ∀ (l : List Char) (b : Bool),
    (dashSpaceGo b l).filter (fun c => !isPySpace c) = l.filter (fun c => !isPySpace c)
  | [], _ => rfl
  | c :: cs, b => by
    simp only [dashSpaceGo]
    split
    · rename_i h
      have hc : isPySpace c = true := (Bool.and_eq_true_iff.mp h).2
      rw [dashSpaceGo_filter cs true]
      simp [List.filter_cons, hc]
    · simp [List.filter_cons, dashSpaceGo_filter cs (isDashChar c)]

theorem dashSpaceGo_false_cons (c : Char) (cs : List Char) :
    dashSpaceGo false (c :: cs) = c :: dashSpaceGo (isDashChar c) cs := by
  simp [dashSpaceGo]

theorem dashSpaceGo_false_head? (l : List Char) :
    (dashSpaceGo false l).head? = l.head? := by
  cases l with
  | nil => rfl
  | cons c cs => rw [dashSpaceGo_false_cons]; rfl

theorem dashSpaceGo_true_head_nonws : ∀ (l : List Char) {e : Char},
    (dashSpaceGo true l).head? = some e → isPySpace e = false
  | [], e => by intro h; cases h
  | c :: cs, e => by
    intro h
    simp only [dashSpaceGo] at h
    split at h
    · exact dashSpaceGo_true_head_nonws cs h
    · rename_i hcond
      simp only [Bool.true_and] at hcond
      rw [List.head?_cons, Option.some_inj] at h
      subst h
      simpa using hcond

theorem dashSpaceGo_chain : ∀ (l : List Char) (b : Bool), List.Chain' noWW l →
    List.Chain' (fun a b => noWW a b ∧ noDW a b) (dashSpaceGo b l)
  | [], _, _ => by simp [dashSpaceGo]
  | c :: cs, b, h => by
    simp only [dashSpaceGo]
    split
    · exact dashSpaceGo_chain cs true h.tail
    · refine List.chain'_cons'.mpr ⟨?_, dashSpaceGo_chain cs (isDashChar c) h.tail⟩
      intro e he
      rw [Option.mem_def] at he
      by_cases hdc : isDashChar c = true
      · rw [hdc] at he
        have hew := dashSpaceGo_true_head_nonws cs he
        exact ⟨fun hp => absurd hp.2 (by simp [hew]),
          fun hp => absurd hp.2 (by simp [hew])⟩
      · have hb : isDashChar c = false := by simpa using hdc
        rw [hb, dashSpaceGo_false_head?] at he
        constructor
        · exact fun hp => (List.chain'_cons'.mp h).1 e (Option.mem_def.mpr he) hp
        · exact fun hp => absurd hp.1 (by simp [hb])

theorem dashSpaceGo_eq_nil_all_ws {l : List Char} {b : Bool} (h : dashSpaceGo b l = []) :
    ∀ c ∈ l, isPySpace c = true := by
  intro c hc
  by_contra hcw
  have hnw : isPySpace c = false := by simpa using hcw
  have hmem : c ∈ (dashSpaceGo b l).filter (fun c => !isPySpace c) := by
    rw [dashSpaceGo_filter]
    exact List.mem_filter.mpr ⟨hc, by simp [hnw]⟩
  rw [h] at hmem
  cases hmem

theorem dashSpaceGo_getLast? : ∀ (l : List Char) (b : Bool),
    (∀ x, l.getLast? = some x → isPySpace x = false) →
    (dashSpaceGo b l).getLast? = l.getLast?
  | [], _, _ => rfl
  | [c], b, h => by
    have hc := h c rfl
    rw [dashSpaceGo_cons]
    simp [hc, dashSpaceGo]
  | c :: d :: cs, b, h => by
    have h' : ∀ x, (d :: cs).getLast? = some x → isPySpace x = false := by
      intro x hx
      exact h x (by rw [List.getLast?_cons_cons]; exact hx)
    rw [dashSpaceGo_cons]
    split
    · rw [dashSpaceGo_getLast? (d :: cs) true h', List.getLast?_cons_cons]
    · have hne : dashSpaceGo (isDashChar c) (d :: cs) ≠ [] := by
        intro h0
        have hall := dashSpaceGo_eq_nil_all_ws h0
        obtain ⟨x, hx⟩ : ∃ x, (d :: cs).getLast? = some x := by
          cases hgl : (d :: cs).getLast? with
          | none => exact absurd (List.getLast?_eq_none_iff.mp hgl) (by simp)
          | some y => exact ⟨y, rfl⟩
        exact absurd (hall x (List.mem_of_mem_getLast? hx)) (by simp [h' x hx])
      rw [getLast?_cons_ne_nil hne, List.getLast?_cons_cons]
      exact dashSpaceGo_getLast? (d :: cs) (isDashChar c) h'

theorem dashSpaceGo_eq_self : ∀ (l : List Char) (b : Bool),
    List.Chain' noDW l → (b = true → ∀ e, l.head? = some e → isPySpace e = false) →
    dashSpaceGo b l = l
  | [], _, _, _ => rfl
  | c :: cs, b, hch, hb => by
    have hcond : (b && isPySpace c) = false := by
      cases b with
      | false => rfl
      | true => rw [hb rfl c rfl, Bool.and_false]
    simp only [dashSpaceGo, hcond, Bool.false_eq_true, if_false]
    congr 1
    refine dashSpaceGo_eq_self cs (isDashChar c) hch.tail ?_
    intro hd e he
    by_contra hws
    exact (List.chain'_cons'.mp hch).1 e (Option.mem_def.mpr he) ⟨hd, by simpa using hws⟩

theorem spacePunctSub_cons (c : Char) (cs : List Char) :
    spacePunctSub (c :: cs) =
      (if (isPySpace c && wsThenPunct cs) = true then [] else [c]) ++ spacePunctSub cs := rfl

theorem spacePunctSub_sublist : ∀ (l : List Char), (spacePunctSub l).Sublist l
  | [] => List.Sublist.refl _
  | c :: cs => by
    rw [spacePunctSub_cons]
    split
    · simpa using List.Sublist.cons c (spacePunctSub_sublist cs)
    · simpa using List.Sublist.cons₂ c (spacePunctSub_sublist cs)

theorem spacePunctSub_filter : ∀ (l : List Char),
    (spacePunctSub l).filter (fun c => !isPySpace c) = l.filter (fun c => !isPySpace c)
  | [] => rfl
  | c :: cs => by
    rw [spacePunctSub_cons]
    split
    · rename_i h
      have hc : isPySpace c = true := (Bool.and_eq_true_iff.mp h).1
      simp [List.filter_cons, hc, spacePunctSub_filter cs]
    · simp [List.filter_cons, spacePunctSub_filter cs]

theorem spacePunctSub_cons_nonws {c : Char} (cs : List Char) (h : isPySpace c = false) :
    spacePunctSub (c :: cs) = c :: spacePunctSub cs := by
  rw [spacePunctSub_cons, if_neg (by simp [h]), List.singleton_append]

theorem spacePunctSub_ne_nil : ∀ {l : List Char}, l ≠ [] → spacePunctSub l ≠ []
  | [], h => absurd rfl h
  | c :: cs, _ => by
    rw [spacePunctSub_cons]
    split
    · rename_i hcond
      have hp : wsThenPunct cs = true := (Bool.and_eq_true_iff.mp hcond).2
      have hcs : cs ≠ [] := by
        intro h0
        subst h0
        simp [wsThenPunct, List.dropWhile] at hp
      simpa using spacePunctSub_ne_nil hcs
    · simp

theorem spacePunctSub_getLast? : ∀ (l : List Char),
    (spacePunctSub l).getLast? = l.getLast?
  | [] => rfl
  | [c] => by
    rw [spacePunctSub_cons]
    simp [wsThenPunct, List.dropWhile, spacePunctSub]
  | c :: d :: cs => by
    have hne := spacePunctSub_ne_nil (l := d :: cs) (by simp)
    rw [spacePunctSub_cons]
    split
    · rw [List.nil_append, spacePunctSub_getLast? (d :: cs), List.getLast?_cons_cons]
    · rw [List.singleton_append, getLast?_cons_ne_nil hne,
        spacePunctSub_getLast? (d :: cs), List.getLast?_cons_cons]

theorem sp_head_cases {d : Char} {cs' : List Char}
    (hch : List.Chain' noWW (d :: cs')) {e : Char}
    (he : (spacePunctSub (d :: cs')).head? = some e) :
    e = d ∨ (isPySpace e = false ∧ isPunctChar e = true) := by
  rw [spacePunctSub_cons] at he
  split at he
  · rename_i hcond
    obtain ⟨hd, hp⟩ := Bool.and_eq_true_iff.mp hcond
    rw [List.nil_append] at he
    cases cs' with
    | nil => cases he
    | cons x xs =>
      have hx : isPySpace x = false := by
        have := (List.chain'_cons'.mp hch).1 x (by simp)
        by_contra h0
        exact this ⟨hd, by simpa using h0⟩
      rw [spacePunctSub_cons_nonws xs hx, List.head?_cons, Option.some_inj] at he
      subst he
      refine Or.inr ⟨hx, ?_⟩
      unfold wsThenPunct at hp
      rw [List.dropWhile_cons, if_neg (by simp [hx])] at hp
      exact hp
  · rw [List.singleton_append, List.head?_cons, Option.some_inj] at he
    exact Or.inl he.symm

theorem spacePunctSub_chain : ∀ (l : List Char),
    List.Chain' (fun a b => noWW a b ∧ noDW a b) l →
    List.Chain' okPair (spacePunctSub l)
  | [], _ => by simp [spacePunctSub]
  | c :: cs, h => by
    rw [spacePunctSub_cons]
    split
    · rw [List.nil_append]
      exact spacePunctSub_chain cs h.tail
    · rename_i hkept
      rw [List.singleton_append]
      refine List.chain'_cons'.mpr ⟨?_, spacePunctSub_chain cs h.tail⟩
      intro e he
      rw [Option.mem_def] at he
      cases cs with
      | nil => cases he
      | cons d cs' =>
        have hWW : List.Chain' noWW (d :: cs') := h.tail.imp (fun _ _ hab => hab.1)
        have hpair := (List.chain'_cons'.mp h).1 d (by simp)
        rcases sp_head_cases hWW he with he1 | ⟨henw, hep⟩
        · subst he1
          refine ⟨hpair.1, hpair.2, ?_⟩
          rintro ⟨hwc, hpd⟩
          apply hkept
          rw [Bool.and_eq_true_iff]
          refine ⟨hwc, ?_⟩
          unfold wsThenPunct
          rw [List.dropWhile_cons, if_neg (by simp [punctChar_not_ws hpd])]
          exact hpd
        · refine ⟨fun hp => absurd hp.2 (by simp [henw]),
            fun hp => absurd hp.2 (by simp [henw]), ?_⟩
          rintro ⟨hwc, hpe⟩
          by_cases hd : isPySpace d = true
          · exact hpair.1 ⟨hwc, hd⟩
          · have hd' : isPySpace d = false := by simpa using hd
            rw [spacePunctSub_cons_nonws cs' hd', List.head?_cons, Option.some_inj] at he
            subst he
            apply hkept
            rw [Bool.and_eq_true_iff]
            refine ⟨hwc, ?_⟩
            unfold wsThenPunct
            rw [List.dropWhile_cons, if_neg (by simp [hd'])]
            exact hpe

theorem spacePunctSub_eq_self : ∀ (l : List Char),
    List.Chain' noWW l → List.Chain' noWP l → spacePunctSub l = l
  | [], _, _ => rfl
  | c :: cs, hww, hwp => by
    have hcond : (isPySpace c && wsThenPunct cs) = false := by
      cases hws : isPySpace c with
      | false => rfl
      | true =>
        rw [Bool.true_and]
        cases cs with
        | nil => rfl
        | cons d cs' =>
          have hd : isPySpace d = false := by
            have := (List.chain'_cons'.mp hww).1 d (by simp)
            by_contra h0
            exact this ⟨hws, by simpa using h0⟩
          have hpd : isPunctChar d = false := by
            have := (List.chain'_cons'.mp hwp).1 d (by simp)
            by_contra h0
            exact this ⟨hws, by simpa using h0⟩
          unfold wsThenPunct
          rw [List.dropWhile_cons, if_neg (by simp [hd])]
          exact hpd
    rw [spacePunctSub_cons]
    simp only [hcond, Bool.false_eq_true, if_false, List.singleton_append]
    congr 1
    exact spacePunctSub_eq_self cs hww.tail hwp.tail

theorem collapseWS_eq_self : ∀ (l : List Char), (∀ c ∈ l, isPySpace c = true → c = ' ') →
    List.Chain' noWW l → collapseWS l = l
  | [], _, _ => rfl
  | c :: cs, hws, hch => by
    by_cases hc : isPySpace c = true
    · have hcsp : c = ' ' := hws c (by simp) hc
      cases cs with
      | nil => simp [collapseWS, hc, hcsp]
      | cons d cs' =>
        have hd : isPySpace d = false := by
          have := (List.chain'_cons'.mp hch).1 d (by simp)
          by_contra h0
          exact this ⟨hc, by simpa using h0⟩
        rw [show collapseWS (c :: d :: cs') = ' ' :: collapseWS (d :: cs') by
          simp [collapseWS, hc, hd]]
        rw [collapseWS_eq_self (d :: cs')
          (fun e he hw => hws e (List.mem_cons_of_mem _ he) hw) hch.tail, hcsp]
    · rw [collapseWS_cons_nonws _ (by simpa using hc)]
      rw [collapseWS_eq_self cs (fun e he hw => hws e (List.mem_cons_of_mem _ he) hw)
        hch.tail]

theorem collapseWS_filter : ∀ (l : List Char),
    (collapseWS l).filter (fun c => !isPySpace c) = l.filter (fun c => !isPySpace c)
  | [] => rfl
  | c :: cs => by
    have hsp : isPySpace ' ' = true := by decide
    by_cases hc : isPySpace c = true
    · cases cs with
      | nil => simp [collapseWS, hc, List.filter_cons, hsp]
      | cons d cs' =>
        by_cases hd : isPySpace d = true
        · rw [show collapseWS (c :: d :: cs') = collapseWS (d :: cs') by
            simp [collapseWS, hc, hd]]
          rw [collapseWS_filter (d :: cs')]
          simp [List.filter_cons, hc]
        · rw [show collapseWS (c :: d :: cs') = ' ' :: collapseWS (d :: cs') by
            simp [collapseWS, hc, hd]]
          simp [List.filter_cons, hc, hsp, collapseWS_filter (d :: cs')]
    · rw [collapseWS_cons_nonws _ (by simpa using hc)]
      simp [List.filter_cons, hc, collapseWS_filter cs]

theorem pyStrip_cons_nonws {c : Char} (x : List Char) (h : isPySpace c = false) :
    pyStrip (c :: x) = c :: (x.reverse.dropWhile isPySpace).reverse := by
  unfold pyStrip
  rw [List.dropWhile_cons, if_neg (by simp [h]), List.reverse_cons, List.dropWhile_append]
  split
  · rename_i hcase
    have h0 : x.reverse.dropWhile isPySpace = [] := List.isEmpty_iff.mp hcase
    rw [h0]
    simp [List.dropWhile_cons, h]
  · rw [List.reverse_append]
    simp

/-- Every output line of the final cleanup is in `NormLine` form. -/
theorem cleanup_line_norm (x : List Char) : NormLine (cleanup_line x) := by
  have hws1 := collapseWS_ws_space x
  have hch1 := collapseWS_chain x
  have hws2 : ∀ c ∈ pyStrip (collapseWS x), isPySpace c = true → c = ' ' :=
    fun c hc => hws1 c ((pyStrip_sublist _).subset hc)
  have hch2 : List.Chain' noWW (pyStrip (collapseWS x)) := chain_pyStrip hch1
  have hh2 : ∀ c, (pyStrip (collapseWS x)).head? = some c → isPySpace c = false :=
    fun _ h => pyStrip_head_not_ws h
  have hl2 : ∀ c, (pyStrip (collapseWS x)).getLast? = some c → isPySpace c = false :=
    fun _ h => pyStrip_getLast_not_ws h
  have hws3 : ∀ c ∈ dashSpaceSub (pyStrip (collapseWS x)), isPySpace c = true → c = ' ' :=
    fun c hc => hws2 c ((dashSpaceGo_sublist _ false).subset hc)
  have hch3 : List.Chain' (fun a b => noWW a b ∧ noDW a b)
      (dashSpaceSub (pyStrip (collapseWS x))) := dashSpaceGo_chain _ false hch2
  have hh3 : ∀ c, (dashSpaceSub (pyStrip (collapseWS x))).head? = some c →
      isPySpace c = false := by
    intro c h
    rw [dashSpaceSub, dashSpaceGo_false_head?] at h
    exact hh2 c h
  have hl3 : ∀ c, (dashSpaceSub (pyStrip (collapseWS x))).getLast? = some c →
      isPySpace c = false := by
    intro c h
    rw [dashSpaceSub, dashSpaceGo_getLast? _ false hl2] at h
    exact hl2 c h
  unfold cleanup_line NormLine
  refine ⟨?_, ?_, ?_, ?_⟩
  · intro c hc
    exact hws3 c ((spacePunctSub_sublist _).subset hc)
  · exact spacePunctSub_chain _ hch3
  · intro c h
    cases hy : dashSpaceSub (pyStrip (collapseWS x)) with
    | nil => rw [hy] at h; cases h
    | cons d ds =>
      have hd : isPySpace d = false := hh3 d (by rw [hy]; rfl)
      rw [hy, spacePunctSub_cons_nonws ds hd, List.head?_cons, Option.some_inj] at h
      subst h
      exact hd
  · intro c h
    rw [spacePunctSub_getLast?] at h
    exact hl3 c h

/-- Each stage of the final cleanup is the identity on normal-form lines. -/
theorem cleanup_line_eq_self {l : List Char} (h : NormLine l) : cleanup_line l = l := by
  obtain ⟨hws, hch, hh, hl⟩ := h
  have h1 : collapseWS l = l := collapseWS_eq_self l hws (hch.imp fun _ _ hab => hab.1)
  have h2 : pyStrip l = l := pyStrip_eq_self hh hl
  have h3 : dashSpaceSub l = l :=
    dashSpaceGo_eq_self l false (hch.imp fun _ _ hab => hab.2.1)
      (fun h0 => absurd h0 (by simp))
  have h4 : spacePunctSub l = l :=
    spacePunctSub_eq_self l (hch.imp fun _ _ hab => hab.1)
      (hch.imp fun _ _ hab => hab.2.2)
  unfold cleanup_line
  rw [h1, h2, h3, h4]

theorem cleanup_line_idem (x : List Char) :
    cleanup_line (cleanup_line x) = cleanup_line x :=
  cleanup_line_eq_self (cleanup_line_norm x)

theorem cleanup_line_filter (x : List Char) :
    (cleanup_line x).filter (fun c => !isPySpace c) = x.filter (fun c => !isPySpace c) := by
  unfold cleanup_line dashSpaceSub
  rw [spacePunctSub_filter, dashSpaceGo_filter, pyStrip_filter_nonws, collapseWS_filter]

theorem cleanup_line_stripped (x : List Char) :
    pyStrip (cleanup_line x) = cleanup_line x :=
  pyStrip_eq_self (cleanup_line_norm x).2.2.1 (cleanup_line_norm x).2.2.2

theorem newline_not_mem_cleanup (x : List Char) : '\n' ∉ cleanup_line x := by
  intro h
  exact absurd ((cleanup_line_norm x).1 '\n' h (by decide)) (by decide)

theorem cleanup_line_ne_nil {x : List Char} (h : ∃ c ∈ x, isPySpace c = false) :
    cleanup_line x ≠ [] := by
  obtain ⟨c, hc, hnw⟩ := h
  intro h0
  have hmem : c ∈ (cleanup_line x).filter (fun c => !isPySpace c) := by
    rw [cleanup_line_filter]
    exact List.mem_filter.mpr ⟨hc, by simp [hnw]⟩
  rw [h0] at hmem
  cases hmem

theorem cleanup_line_cons_nonws (c : Char) (cs : List Char) (h : isPySpace c = false) :
    ∃ r, cleanup_line (c :: cs) = c :: r := by
  unfold cleanup_line dashSpaceSub
  rw [collapseWS_cons_nonws _ h, pyStrip_cons_nonws _ h, dashSpaceGo_false_cons,
    spacePunctSub_cons_nonws _ h]
  exact ⟨_, rfl⟩

theorem cleanup_line_head?_of_stripped {l : List Char} (hs : pyStrip l = l) :
    (cleanup_line l).head? = l.head? := by
  cases l with
  | nil => rfl
  | cons c cs =>
    have hc : isPySpace c = false := pyStrip_head_not_ws (l := c :: cs) (by rw [hs]; rfl)
    obtain ⟨r, hr⟩ := cleanup_line_cons_nonws c cs hc
    rw [hr]
    rfl

/-! ## Pollution-marker freeness of cleaned lines -/

theorem afterFirst_length {c : Char} : ∀ {l r : List Char},
    afterFirst c l = some r → r.length < l.length := by
  intro l
  induction l with
  | nil => intro r h; cases h
  | cons d ds ih =>
    intro r h
    simp only [afterFirst] at h
    split at h
    · injection h with h
      subst h
      simp
    · exact Nat.lt_succ_of_lt (ih h)

theorem pair_sublist_cons {a b c : Char} {t : List Char}
    (h : [a, b].Sublist (c :: t)) : (a = c ∧ b ∈ t) ∨ [a, b].Sublist t := by
  rcases List.sublist_cons_iff.mp h with h | ⟨r, hr, hsub⟩
  · exact Or.inr h
  · injection hr with h1 h2
    subst h1
    subst h2
    exact Or.inl ⟨rfl, List.singleton_sublist.mp hsub⟩

theorem pair_mem_right {a b : Char} {l : List Char} (h : [a, b].Sublist l) : b ∈ l :=
  h.subset (by simp)

theorem afterFirst_none {c : Char} : ∀ {l : List Char}, afterFirst c l = none ↔ c ∉ l := by
  intro l
  induction l with
  | nil => simp [afterFirst]
  | cons d ds ih =>
    simp only [afterFirst]
    split
    · rename_i hd
      subst hd
      simp
    · rename_i hd
      constructor
      · intro h hmem
        rcases List.mem_cons.mp hmem with h1 | h1
        · exact hd h1.symm
        · exact ih.mp h h1
      · intro h
        exact ih.mpr (fun h1 => h (List.mem_cons_of_mem _ h1))

theorem afterFirst_some_go {op cl : Char} : ∀ {l r : List Char} (buf : List Char),
    afterFirst cl l = some r →
    removeDelimitedGo op cl (some buf) l = removeDelimitedGo op cl none r := by
  intro l
  induction l with
  | nil => intro r buf h; cases h
  | cons d ds ih =>
    intro r buf h
    simp only [afterFirst] at h
    by_cases hd : d = cl
    · rw [if_pos hd] at h
      injection h with h
      subst h
      show (if d = cl then _ else _) = _
      rw [if_pos hd]
    · rw [if_neg hd] at h
      show (if d = cl then _ else _) = _
      rw [if_neg hd]
      exact ih _ h

theorem go_some_no_close {op cl : Char} : ∀ {l : List Char} (buf : List Char), cl ∉ l →
    removeDelimitedGo op cl (some buf) l = op :: buf.reverse ++ l := by
  intro l
  induction l with
  | nil => intro buf _; simp [removeDelimitedGo]
  | cons d ds ih =>
    intro buf h
    have hd : ¬(d = cl) := fun h0 => h (h0 ▸ List.mem_cons_self d ds)
    show (if d = cl then _ else _) = _
    rw [if_neg hd, ih (d :: buf) (fun hm => h (List.mem_cons_of_mem _ hm))]
    simp

theorem removeDelimitedGo_none_cons (op cl c : Char) (cs : List Char) :
    removeDelimitedGo op cl none (c :: cs) =
      if c = op then removeDelimitedGo op cl (some []) cs
      else c :: removeDelimitedGo op cl none cs := rfl

theorem removeDelimited_pairFree (op cl : Char) : ∀ (n : Nat) (l : List Char),
    l.length ≤ n → ¬ [op, cl].Sublist (removeDelimited op cl l) := by
  intro n
  induction n with
  | zero =>
    intro l hl h
    have h0 : l = [] := List.length_eq_zero.mp (Nat.le_zero.mp hl)
    subst h0
    simp [removeDelimited, removeDelimitedGo] at h
  | succ n ih =>
    intro l hl h
    cases l with
    | nil => simp [removeDelimited, removeDelimitedGo] at h
    | cons c cs =>
      have hcs : cs.length ≤ n := by
        simp only [List.length_cons] at hl
        omega
      unfold removeDelimited at h
      rw [removeDelimitedGo_none_cons] at h
      by_cases hc : c = op
      · rw [if_pos hc] at h
        cases haf : afterFirst cl cs with
        | some r =>
          rw [afterFirst_some_go [] haf] at h
          have hr : r.length ≤ n := Nat.le_of_lt (Nat.lt_of_lt_of_le (afterFirst_length haf) hcs)
          exact ih r hr h
        | none =>
          rw [go_some_no_close [] (afterFirst_none.mp haf)] at h
          simp only [List.reverse_nil, List.nil_append] at h
          rcases pair_sublist_cons h with ⟨_, hmem⟩ | hsub
          · exact (afterFirst_none.mp haf) hmem
          · exact (afterFirst_none.mp haf) (pair_mem_right hsub)
      · rw [if_neg hc] at h
        rcases pair_sublist_cons h with ⟨h1, _⟩ | hsub
        · exact hc h1.symm
        · exact ih cs hcs hsub

theorem removeDelimited_eq_self {op cl : Char} : ∀ {l : List Char},
    ¬ [op, cl].Sublist l → removeDelimited op cl l = l := by
  intro l
  induction l with
  | nil => intro _; rfl
  | cons c cs ih =>
    intro h
    unfold removeDelimited
    rw [removeDelimitedGo_none_cons]
    by_cases hc : c = op
    · have hcl : cl ∉ cs := by
        intro hm
        apply h
        rw [hc]
        exact List.Sublist.cons₂ op (List.singleton_sublist.mpr hm)
      rw [if_pos hc, go_some_no_close [] hcl]
      simp [hc]
    · rw [if_neg hc]
      congr 1
      exact ih (fun hsub => h (List.Sublist.cons c hsub))

theorem removeLeadingDash_sublist (l : List Char) : (removeLeadingDash l).Sublist l := by
  cases l with
  | nil => exact List.Sublist.refl _
  | cons c cs =>
    by_cases h : isDashChar c = true
    · rw [show removeLeadingDash (c :: cs) = cs from by simp [removeLeadingDash, h]]
      exact List.sublist_cons_self c cs
    · rw [show removeLeadingDash (c :: cs) = c :: cs from by simp [removeLeadingDash, h]]

/-- The stages of `_clean_line` after each pollution remover only delete
characters, so marker-freeness established by a stage persists to the final
cleaned line. -/
theorem clean_line_sub_parens (l : List Char) :
    (clean_line l).Sublist (remove_parentheses_content l) := by
  unfold clean_line remove_music_indication
  refine (pyStrip_sublist _).trans ((remove_speaker_sublist _).trans
    ((List.filter_sublist _).trans ?_))
  exact (removeDelimited_sublist _ _ _).trans
    ((removeDelimited_sublist _ _ _).trans (removeDelimited_sublist _ _ _))

theorem clean_line_sub_brackets (l : List Char) :
    (clean_line l).Sublist (remove_bracket_content (remove_parentheses_content l)) := by
  unfold clean_line remove_music_indication
  refine (pyStrip_sublist _).trans ((remove_speaker_sublist _).trans
    ((List.filter_sublist _).trans ?_))
  exact (removeDelimited_sublist _ _ _).trans (removeDelimited_sublist _ _ _)

theorem clean_line_sub_curly (l : List Char) :
    (clean_line l).Sublist (remove_curly_bracket_content
      (remove_bracket_content (remove_parentheses_content l))) := by
  unfold clean_line remove_music_indication
  refine (pyStrip_sublist _).trans ((remove_speaker_sublist _).trans
    ((List.filter_sublist _).trans ?_))
  exact removeDelimited_sublist _ _ _

theorem clean_line_sub_hash (l : List Char) :
    (clean_line l).Sublist (remove_hash_symbol_content (remove_curly_bracket_content
      (remove_bracket_content (remove_parentheses_content l)))) := by
  unfold clean_line remove_music_indication
  exact (pyStrip_sublist _).trans ((remove_speaker_sublist _).trans
    (List.filter_sublist _))

theorem clean_line_sub_music (l : List Char) :
    (clean_line l).Sublist (remove_music_indication (remove_hash_symbol_content
      (remove_curly_bracket_content (remove_bracket_content
        (remove_parentheses_content l))))) := by
  unfold clean_line
  exact (pyStrip_sublist _).trans (remove_speaker_sublist _)

/-- A cleaned line contains no matched pollution pair and no music glyph. -/
theorem clean_line_markerFree (l : List Char) :
    ¬ [('(' : Char), ')'].Sublist (clean_line l) ∧
    ¬ [('[' : Char), ']'].Sublist (clean_line l) ∧
    ¬ [('\x7b' : Char), '\x7d'].Sublist (clean_line l) ∧
    ¬ [('#' : Char), '#'].Sublist (clean_line l) ∧
    '♪' ∉ clean_line l := by
  refine ⟨?_, ?_, ?_, ?_, ?_⟩
  · intro h
    exact removeDelimited_pairFree '(' ')' l.length l le_rfl
      (h.trans (clean_line_sub_parens l))
  · intro h
    exact removeDelimited_pairFree '[' ']' _ _ le_rfl
      (h.trans (clean_line_sub_brackets l))
  · intro h
    exact removeDelimited_pairFree '\x7b' '\x7d' _ _ le_rfl
      (h.trans (clean_line_sub_curly l))
  · intro h
    exact removeDelimited_pairFree '#' '#' _ _ le_rfl
      (h.trans (clean_line_sub_hash l))
  · intro h
    have hmem := (clean_line_sub_music l).subset h
    have := List.mem_filter.mp hmem
    simp at this

theorem music_eq_self {m : List Char} (hm : '♪' ∉ m) : remove_music_indication m = m :=
  List.filter_eq_self.mpr (fun a ha => by
    simp only [decide_eq_true_iff]
    exact fun h0 => hm (h0 ▸ ha))

/-- A line free of all pollution markers, on which speaker stripping is the
identity and which is already stripped, is a fixed point of `_clean_line`. -/
theorem clean_line_eq_self {m : List Char}
    (hp : ¬ [('(' : Char), ')'].Sublist m) (hb : ¬ [('[' : Char), ']'].Sublist m)
    (hc : ¬ [('\x7b' : Char), '\x7d'].Sublist m) (hh : ¬ [('#' : Char), '#'].Sublist m)
    (hm : '♪' ∉ m) (hsp : remove_speaker_identification m = m) (hst : pyStrip m = m) :
    clean_line m = m := by
  unfold clean_line
  rw [show remove_parentheses_content m = m from removeDelimited_eq_self hp,
    show remove_bracket_content m = m from removeDelimited_eq_self hb,
    show remove_curly_bracket_content m = m from removeDelimited_eq_self hc,
    show remove_hash_symbol_content m = m from removeDelimited_eq_self hh,
    music_eq_self hm, hsp, hst]

theorem pair_not_sublist_cleanup {a b : Char} {x : List Char}
    (hna : isPySpace a = false) (hnb : isPySpace b = false)
    (h : ¬ [a, b].Sublist x) : ¬ [a, b].Sublist (cleanup_line x) := by
  intro hsub
  apply h
  have h1 : [a, b].filter (fun c => !isPySpace c) = [a, b] := by
    simp [List.filter_cons, hna, hnb]
  have h2 : [a, b].Sublist ((cleanup_line x).filter (fun c => !isPySpace c)) := by
    rw [← h1]
    exact List.Sublist.filter _ hsub
  rw [cleanup_line_filter] at h2
  exact h2.trans (List.filter_sublist x)

theorem mem_cleanup_nonws {a : Char} {x : List Char} (hna : isPySpace a = false)
    (h : a ∈ cleanup_line x) : a ∈ x := by
  have hmem : a ∈ (cleanup_line x).filter (fun c => !isPySpace c) :=
    List.mem_filter.mpr ⟨h, by simp [hna]⟩
  rw [cleanup_line_filter] at hmem
  exact List.mem_of_mem_filter hmem

theorem pair_not_sublist_cons {a b d : Char} {x : List Char} (hne : a ≠ d)
    (h : ¬ [a, b].Sublist x) : ¬ [a, b].Sublist (d :: x) := by
  intro hsub
  rcases pair_sublist_cons hsub with ⟨h1, _⟩ | hsub'
  · exact hne h1
  · exact h hsub'

/-! ## The reformatting step on reassembled cleaned lines -/

theorem format_structure_on_join (d : Subtitle) {L : List (List Char)} (hne : L ≠ [])
    (hmem : ∀ l ∈ L, pyStrip l = l ∧ l ≠ []) (hnl : ∀ l ∈ L, '\n' ∉ l) :
    format_structure d (joinNL L) =
      if should_format d L = true then joinNL (L.map format_line) else joinNL L := by
  have hguard : ¬((pyStrip (joinNL L)).isEmpty = true) := by
    simpa using List.isEmpty_eq_false.mpr (pyStrip_joinNL_ne_nil hne hmem)
  unfold format_structure
  rw [if_neg hguard, splitNL_joinNL L hne hnl]

theorem should_format_congr {d e : Subtitle} (h : d.«structure» = e.«structure»)
    (L : List (List Char)) : should_format d L = should_format e L := by
  unfold should_format
  rw [h]

theorem final_cleanup_join {L : List (List Char)} (hne : L ≠ [])
    (hnl : ∀ l ∈ L, '\n' ∉ l) (hnw : ∀ l ∈ L, ∃ c ∈ l, isPySpace c = false) :
    final_cleanup (joinNL L) = joinNL (L.map cleanup_line) := by
  unfold final_cleanup
  rw [splitNL_joinNL L hne hnl]
  congr 1
  rw [List.filter_eq_self]
  intro a ha
  obtain ⟨l, hl, rfl⟩ := List.mem_map.mp ha
  simpa using List.isEmpty_eq_false.mpr (cleanup_line_ne_nil (hnw l hl))

theorem clean_text_of_no_survivors {d : Subtitle} (h : survivors d = []) :
    (clean_subtitle d).text = [] := by
  rw [clean_subtitle_text, h]
  rfl

theorem clean_text_of_all_blank {c : Subtitle}
    (h : c.lines = [] ∨ ∀ l ∈ c.lines, pyStrip (clean_line l) = []) :
    (clean_subtitle c).text = [] := by
  have hs : survivors c = [] := by
    unfold survivors
    rcases h with h | h
    · simp [h]
    · rw [List.filter_eq_nil_iff]
      intro l hl
      obtain ⟨l0, hl0, rfl⟩ := List.mem_map.mp hl
      simp [h l0 hl0]
  rw [clean_subtitle_text, hs]
  rfl

theorem clean_lines_nonblank (c : Subtitle) :
    (clean_subtitle c).text = [] ∨
      ∀ m ∈ (clean_subtitle c).lines, pyStrip m ≠ [] := by
  rw [clean_subtitle_lines, clean_subtitle_text]
  generalize format_structure c (joinNL (survivors c)) = t
  unfold final_cleanup
  by_cases hM : ((splitNL t).map cleanup_line).filter (fun l => !l.isEmpty) = []
  · left
    rw [hM]
    rfl
  · right
    intro m hm
    have hnlM : ∀ l ∈ ((splitNL t).map cleanup_line).filter (fun l => !l.isEmpty),
        '\n' ∉ l := by
      intro l hl
      obtain ⟨hmem, -⟩ := List.mem_filter.mp hl
      obtain ⟨x, -, rfl⟩ := List.mem_map.mp hmem
      exact newline_not_mem_cleanup x
    rw [splitNL_joinNL _ hM hnlM] at hm
    obtain ⟨hmem, hne⟩ := List.mem_filter.mp hm
    obtain ⟨x, -, rfl⟩ := List.mem_map.mp hmem
    rw [cleanup_line_stripped x]
    simpa using hne

theorem format_line_pair_transport {a b : Char} {s : List Char} (ha : a ≠ '-')
    (h : ¬ [a, b].Sublist s) (hs : pyStrip s = s) : ¬ [a, b].Sublist (format_line s) := by
  unfold format_line
  rw [hs]
  split
  · intro hsub
    simp at hsub
  · split
    · exact pair_not_sublist_cons ha
        (fun hsub => h (hsub.trans (removeLeadingDash_sublist s)))
    · exact h

theorem format_line_music_transport {s : List Char} (h : '♪' ∉ s) (hs : pyStrip s = s) :
    '♪' ∉ format_line s := by
  unfold format_line
  rw [hs]
  split
  · simp
  · split
    · intro hmem
      rcases List.mem_cons.mp hmem with h1 | h1
      · exact absurd h1 (by decide)
      · exact h ((removeLeadingDash_sublist s).subset h1)
    · exact h

theorem format_line_shape {s : List Char} (hs : pyStrip s = s) (hne : s ≠ []) :
    (format_line s = '-' :: removeLeadingDash s ∧ removeLeadingDash s ≠ []) ∨
    (format_line s = s ∧ ∃ d, s = [d] ∧ isDashChar d = true) := by
  rw [format_line_stripped_eq hs hne, hs]
  by_cases h : removeLeadingDash s ≠ []
  · rw [if_pos h]
    exact Or.inl ⟨rfl, h⟩
  · rw [if_neg h]
    push_neg at h
    refine Or.inr ⟨rfl, ?_⟩
    cases s with
    | nil => exact absurd rfl hne
    | cons c cs =>
      by_cases hd : isDashChar c = true
      · have hcs : cs = [] := by simpa [removeLeadingDash, hd] using h
        exact ⟨c, by rw [hcs], hd⟩
      · exact absurd h (by simp [removeLeadingDash, hd])

theorem format_line_fix_hyphen {r : List Char} (hs : pyStrip ('-' :: r) = '-' :: r) :
    format_line ('-' :: r) = '-' :: r := by
  rw [format_line_stripped_eq hs (by simp), hs]
  rw [show removeLeadingDash ('-' :: r) = r from by
    simp [removeLeadingDash, (by decide : isDashChar '-' = true)]]
  by_cases hr : r ≠ []
  · rw [if_pos hr]
  · push_neg at hr
    subst hr
    rw [if_neg (by simp)]

theorem normLine_single {d : Char} (hd : isPySpace d = false) : NormLine [d] := by
  refine ⟨?_, List.chain'_singleton d, ?_, ?_⟩
  · intro c hc hw
    rw [List.mem_singleton] at hc
    subst hc
    rw [hw] at hd
    cases hd
  · intro c h
    rw [List.head?_cons, Option.some_inj] at h
    subst h
    exact hd
  · intro c h
    rw [show ([d] : List Char).getLast? = some d from rfl, Option.some_inj] at h
    subst h
    exact hd

theorem format_line_fix_single_dash {d : Char} (hd : isDashChar d = true) :
    format_line [d] = [d] := by
  have hnw := dashChar_not_ws hd
  have hs : pyStrip [d] = [d] :=
    pyStrip_eq_self (normLine_single hnw).2.2.1 (normLine_single hnw).2.2.2
  rw [format_line_stripped_eq hs (by simp), hs]
  rw [show removeLeadingDash [d] = [] from by simp [removeLeadingDash, hd]]
  rw [if_neg (by simp)]

theorem leadingDash_cleanup {s : List Char} (hs : pyStrip s = s) :
    leadingDash (cleanup_line s) = leadingDash s := by
  cases s with
  | nil => rfl
  | cons c cs =>
    have hc : isPySpace c = false := pyStrip_head_not_ws (l := c :: cs) (by rw [hs]; rfl)
    obtain ⟨r, hr⟩ := cleanup_line_cons_nonws c cs hc
    rw [hr]
    rfl

theorem map_eq_self {M : List (List Char)} {f : List Char → List Char}
    (h : ∀ m ∈ M, f m = m) : M.map f = M :=
  (List.map_congr_left h).trans (List.map_id' M)

/-- A second cleaning pass over a caption whose lines `M` are individually
fixed by per-line cleaning, fixed by final cleanup, and (when reformatting
triggers) fixed by the dash formatter, reproduces exactly `joinNL M`. -/
theorem clean_on_fixed_lines {d : Subtitle} {M : List (List Char)}
    (hlines : d.lines = M)
    (hMne : M ≠ [])
    (hfix : ∀ m ∈ M, clean_line m = m)
    (hstrip : ∀ m ∈ M, pyStrip m = m ∧ m ≠ [])
    (hnlM : ∀ m ∈ M, '\n' ∉ m)
    (hcleanup : ∀ m ∈ M, cleanup_line m = m)
    (hfmt : should_format d M = true → ∀ m ∈ M, format_line m = m) :
    (clean_subtitle d).text = joinNL M := by
  have hnwM : ∀ m ∈ M, ∃ ch ∈ m, isPySpace ch = false :=
    fun m hm => exists_nonws_of_stripped (hstrip m hm).1 (hstrip m hm).2
  have hsurv : survivors d = M := by
    unfold survivors
    rw [hlines, map_eq_self hfix, List.filter_eq_self.mpr]
    intro m hm
    simpa using List.isEmpty_eq_false.mpr
      (by rw [(hstrip m hm).1]; exact (hstrip m hm).2)
  rw [clean_subtitle_text, hsurv, format_structure_on_join d hMne hstrip hnlM]
  by_cases hc2 : should_format d M = true
  · rw [if_pos hc2, map_eq_self (hfmt hc2), final_cleanup_join hMne hnlM hnwM,
      map_eq_self hcleanup]
  · rw [if_neg hc2, final_cleanup_join hMne hnlM hnwM, map_eq_self hcleanup]

theorem leadingDash_cons (c : Char) (t : List Char) :
    leadingDash (c :: t) = isDashChar c := rfl

theorem should_format_false_parts {d : Subtitle} {L : List (List Char)}
    (h : should_format d L = false) :
    decide (1 < d.«structure».speaker_count) = false ∧
    d.«structure».has_dashes = false ∧
    L.any (fun line => !(pyStrip line).isEmpty && leadingDash (pyStrip line)) = false := by
  unfold should_format at h
  obtain ⟨h1, h2⟩ := Bool.or_eq_false_iff.mp h
  obtain ⟨h3, h4⟩ := Bool.or_eq_false_iff.mp h1
  exact ⟨h3, h4, h2⟩

theorem should_format_false_build {d : Subtitle} {L : List (List Char)}
    (h1 : decide (1 < d.«structure».speaker_count) = false)
    (h2 : d.«structure».has_dashes = false)
    (h3 : L.any (fun line => !(pyStrip line).isEmpty && leadingDash (pyStrip line)) = false) :
    should_format d L = false := by
  unfold should_format
  rw [h1, h2, h3]
  rfl

theorem should_format_true_of_any {d : Subtitle} {L : List (List Char)}
    (h : L.any (fun line => !(pyStrip line).isEmpty && leadingDash (pyStrip line)) = true) :
    should_format d L = true := by
  unfold should_format
  rw [h, Bool.or_true]

/-! ## Validation of the embedding against `test/test_fix_cc.py`

Each theorem below mirrors an assertion of the repository's own test suite
and is settled by kernel evaluation of the embedded definitions. -/

theorem validate_remove_parentheses :
    remove_parentheses_content (strL "Hello ( whispering ) world") = strL "Hello  world" ∧
    remove_parentheses_content (strL "()") = strL "" := by decide

theorem validate_remove_hash :
    remove_hash_symbol_content (strL "# Hello # World") = strL " World" ∧
    remove_hash_symbol_content (strL "##") = strL "" := by decide

theorem validate_remove_music :
    remove_music_indication (strL "♪ Hello ♪ world") = strL " Hello  world" := by decide

theorem validate_remove_speaker :
    remove_speaker_identification (strL "MRS. WOLOWITZ: How are you?")
      = strL " How are you?" ∧
    remove_speaker_identification (strL " person : how are you?")
      = strL " how are you?" := by decide

theorem validate_final_cleanup_spaces :
    final_cleanup (strL "  Leading  and  trailing  ") = strL "Leading and trailing" ∧
    final_cleanup (strL "Hello , world ! How are you ?")
      = strL "Hello, world! How are you?" := by decide

theorem validate_final_cleanup_multiline :
    final_cleanup (strL "   \n  Line 1  \n   \n  Line 2  \n   ") = strL "Line 1\nLine 2" ∧
    final_cleanup (strL "\n\n\n") = strL "" := by decide

theorem validate_final_cleanup_dashes :
    final_cleanup (strL " -Line 1 \n - Line 2 ") = strL "-Line 1\n-Line 2" ∧
    final_cleanup (strL " - ") = strL "-" ∧
    final_cleanup (strL "–Line 1 \n – Line 2 ") = strL "–Line 1\n–Line 2" := by decide

theorem validate_structure_speakers :
    (Subtitle.ofText 1 [] []
      (strL "SHELDON: I have a theory!\nLEONARD: Not again...")).«structure».speakers
      = [strL "SHELDON", strL "LEONARD"] := by decide

theorem validate_structure_dashes :
    (Subtitle.ofText 1 [] [] (strL " - Hello world\n – World ")).«structure».has_dashes
      = true ∧
    (Subtitle.ofText 1 [] []
      (strL "Hello - world\nWorld - hello")).«structure».has_dashes = false := by decide

theorem validate_clean_single_speaker :
    (clean_subtitle (Subtitle.ofText 1 [] [] (strL "PERSON: How are you?"))).text
      = strL "How are you?" := by decide

theorem validate_clean_speaker_then_dash :
    (clean_subtitle (Subtitle.ofText 1 [] []
      (strL "LESLIE: Good night, guys. Good job.\n-Thanks."))).text
      = strL "-Good night, guys. Good job.\n-Thanks." := by decide

theorem validate_clean_mixed_patterns :
    (clean_subtitle (Subtitle.ofText 1 [] []
      (strL "-I have (excitedly) a theory!\nLEONARD: [Sighs] ♪ Not again... ♪"))).text
      = strL "-I have a theory!\n-Not again..." := by decide

theorem validate_clean_preserves_valid :
    (clean_subtitle (Subtitle.ofText 1 [] [] (strL "Hello world.\nHow are you?"))).text
      = strL "Hello world.\nHow are you?" := by decide

theorem validate_parse_roundtrip :
    (parse_subtitles [strL "1", strL "00:00:01,000 --> 00:00:02,000", strL "hello",
        strL "", strL "2", strL "00:00:03,000 --> 00:00:04,000", strL "world"]).map
      (fun s => (s.number, s.start_time, s.end_time, s.text))
      = [(1, strL "00:00:01,000", strL "00:00:02,000", strL "hello"),
         (2, strL "00:00:03,000", strL "00:00:04,000", strL "world")] := by decide

/-! ## Claims -/

/-- Claim C2, counterexample: the caption `"A:\nB: hi"` has two distinct
speaker labels on its two lines (the analysis records speakers `A` and `B`),
yet cleaning yields the single line `"-hi"`: the label-only line `"A:"`
cleans to nothing and vanishes, so the output does NOT consist of both lines
prefixed with a hyphen as the claim requires. -/
theorem claim2_counterexample :
    (Subtitle.ofText 1 [] [] (strL "A:\nB: hi")).lines.length = 2 ∧
    (Subtitle.ofText 1 [] [] (strL "A:\nB: hi")).«structure».speakers
      = [strL "A", strL "B"] ∧
    (clean_subtitle (Subtitle.ofText 1 [] [] (strL "A:\nB: hi"))).text
      = strL "-hi" ∧
    (clean_subtitle (Subtitle.ofText 1 [] [] (strL "A:\nB: hi"))).lines.length
      = 1 := by decide

/-- Claim C2, amended: when a caption's analysis found more than one distinct
speaker label (in particular, two labels on two lines), dash-per-line
reformatting applies: the cleaned text is the final cleanup of the surviving
cleaned lines, where each surviving line whose dash-stripped remainder is
non-empty gets a single plain hyphen prefixed and a dash-only line is kept
as-is.  The detected leading labels themselves are stripped by the per-line
cleaning, and a line that was only a label vanishes rather than yielding an
output line.  In particular the input
`"SHELDON: She's not that intelligent.\nLEONARD: She fixed your equation."`
cleans to exactly `"-She's not that intelligent.\n-She fixed your equation."`. -/
theorem claim2_dash_formatting (c : Subtitle)
    (hnl : ∀ l ∈ c.lines, '\n' ∉ l)
    (hspk : 1 < c.«structure».speaker_count)
    (hS : survivors c ≠ []) :
    ((clean_subtitle c).text
      = final_cleanup (joinNL ((survivors c).map (fun l =>
          if removeLeadingDash (pyStrip l) ≠ [] then '-' :: removeLeadingDash (pyStrip l)
          else pyStrip l)))) ∧
    (clean_subtitle (Subtitle.ofText 1 (strL "00:00:01,000") (strL "00:00:03,000")
      (strL "SHELDON: She's not that intelligent.\nLEONARD: She fixed your equation."))).text
      = strL "-She's not that intelligent.\n-She fixed your equation." := by
  constructor
  · rw [clean_subtitle_text,
      format_structure_on_join c hS mem_survivors_stripped (mem_survivors_no_newline hnl)]
    have hcond : should_format c (survivors c) = true := by
      unfold should_format
      rw [decide_eq_true hspk, Bool.true_or, Bool.true_or]
    rw [if_pos hcond]
    exact congrArg final_cleanup (congrArg joinNL (List.map_congr_left (fun l hl =>
      format_line_stripped_eq (mem_survivors_stripped l hl).1
        (mem_survivors_stripped l hl).2)))
  · decide

theorem claim2_dash_formatting_witness :
    (∀ l ∈ (Subtitle.ofText 1 (strL "00:00:01,000") (strL "00:00:03,000")
      (strL "SHELDON: She's not that intelligent.\nLEONARD: She fixed your equation.")).lines,
      '\n' ∉ l) ∧
    1 < (Subtitle.ofText 1 (strL "00:00:01,000") (strL "00:00:03,000")
      (strL "SHELDON: She's not that intelligent.\nLEONARD: She fixed your equation.")).«structure».speaker_count ∧
    survivors (Subtitle.ofText 1 (strL "00:00:01,000") (strL "00:00:03,000")
      (strL "SHELDON: She's not that intelligent.\nLEONARD: She fixed your equation.")) ≠ [] ∧
    (((clean_subtitle (Subtitle.ofText 1 (strL "00:00:01,000") (strL "00:00:03,000")
      (strL "SHELDON: She's not that intelligent.\nLEONARD: She fixed your equation."))).text
      = final_cleanup (joinNL ((survivors (Subtitle.ofText 1 (strL "00:00:01,000")
          (strL "00:00:03,000")
          (strL "SHELDON: She's not that intelligent.\nLEONARD: She fixed your equation."))).map
          (fun l =>
            if removeLeadingDash (pyStrip l) ≠ [] then '-' :: removeLeadingDash (pyStrip l)
            else pyStrip l)))) ∧
    (clean_subtitle (Subtitle.ofText 1 (strL "00:00:01,000") (strL "00:00:03,000")
      (strL "SHELDON: She's not that intelligent.\nLEONARD: She fixed your equation."))).text
      = strL "-She's not that intelligent.\n-She fixed your equation.") :=
  ⟨by decide, by decide, by decide,
    claim2_dash_formatting (Subtitle.ofText 1 (strL "00:00:01,000") (strL "00:00:03,000")
      (strL "SHELDON: She's not that intelligent.\nLEONARD: She fixed your equation."))
      (by decide) (by decide) (by decide)⟩

/-- Claim C5: for every caption, `clean_subtitle` returns a new caption whose
`number`, `start_time`, `end_time` and `original_text` equal those of the
input.  The no-mutation part of the claim is intrinsic to this functional
embedding: `clean_subtitle` builds a new value and its argument is untouched. -/
theorem claim5_fields_preserved (c : Subtitle) :
    (clean_subtitle c).number = c.number ∧
    (clean_subtitle c).start_time = c.start_time ∧
    (clean_subtitle c).end_time = c.end_time ∧
    (clean_subtitle c).original_text = c.original_text :=
  ⟨rfl, rfl, rfl, rfl⟩

/-- Claim C8: a line consisting solely of pollution markers is removed
entirely, not left as a blank line.  Universally: (a) a caption whose every
line cleans to blank cleans to the fully empty text, and (b) the cleaned
text of any caption either is empty or splits into lines that are all
non-blank — no blank placeholder line ever appears in the output.
Observably, in the two-line caption `"(applause)\nhi"` the pollution-only
line vanishes and the result is the single line `"hi"`; the single-line
caption `"(applause) [music] ♪"` cleans to the fully empty text. -/
theorem claim8_pollution_only_removed (c : Subtitle) :
    ((∀ l ∈ c.lines, pyStrip (clean_line l) = []) → (clean_subtitle c).text = []) ∧
    ((clean_subtitle c).text = [] ∨
      ∀ m ∈ (clean_subtitle c).lines, pyStrip m ≠ []) ∧
    (clean_subtitle (Subtitle.ofText 1 [] [] (strL "(applause)\nhi"))).lines
      = [strL "hi"] ∧
    (clean_subtitle (Subtitle.ofText 1 [] [] (strL "(applause)\nhi"))).text
      = strL "hi" ∧
    (clean_subtitle (Subtitle.ofText 1 (strL "00:00:01,000") (strL "00:00:03,000")
      (strL "(applause) [music] ♪"))).text = strL "" :=
  ⟨fun hall => clean_text_of_all_blank (Or.inr hall), clean_lines_nonblank c,
    by decide, by decide, by decide⟩

theorem claim8_pollution_only_removed_witness :
    (∀ l ∈ (Subtitle.ofText 1 [] [] (strL "(applause) ♪")).lines,
      pyStrip (clean_line l) = []) ∧
    (clean_subtitle (Subtitle.ofText 1 [] [] (strL "(applause) ♪"))).text = [] :=
  ⟨by decide,
    (claim8_pollution_only_removed (Subtitle.ofText 1 [] [] (strL "(applause) ♪"))).1
      (by decide)⟩

/-- Claim C9: the caption returned by `clean_subtitle` carries the input
caption's structural profile unchanged (not one recomputed from the cleaned
lines); consequently a later clean of the returned caption decides
reformatting from the original caption's pre-cleaning structure. -/
theorem claim9_profile_carried (c : Subtitle) :
    (clean_subtitle c).«structure» = c.«structure» ∧
    (clean_subtitle (clean_subtitle c)).«structure» = c.«structure» :=
  ⟨clean_subtitle_structure c,
    (clean_subtitle_structure (clean_subtitle c)).trans (clean_subtitle_structure c)⟩

/-- Claim C1, counterexample: the caption whose single line is an en dash
triggers reformatting (`has_dashes` is true), yet `_format_structure` keeps
the line as `"–"` (the `else` branch at the dash-only line) instead of
stripping the dash and prefixing a plain hyphen, which would give `"-"`. -/
theorem claim1_counterexample :
    (Subtitle.ofText 1 [] [] (strL "–")).«structure».has_dashes = true ∧
    (clean_subtitle (Subtitle.ofText 1 [] [] (strL "–"))).text = strL "–" ∧
    strL "–" ≠ strL "-" := by decide

/-- Claim C1, amended: for a caption whose lines are newline-free and with at
least one surviving cleaned line, the cleaning pipeline applies dash-per-line
reformatting if and only if the original profile's speaker count exceeds 1, or
the original profile's `has_dashes` flag is true, or some surviving cleaned
line starts (after trimming) with a dash marker.  When reformatting applies,
every surviving cleaned line whose dash-stripped remainder is non-empty has
its leading dash (if any) stripped and a single plain hyphen prefixed; a line
consisting solely of a dash character is kept as-is (so an en- or em-dash-only
line is NOT replaced by a plain hyphen).  When it does not apply, the lines
pass through unchanged. -/
theorem claim1_format_decision (c : Subtitle)
    (hnl : ∀ l ∈ c.lines, '\n' ∉ l) (hS : survivors c ≠ []) :
    format_structure c (joinNL (survivors c)) =
      if 1 < c.«structure».speaker_count ∨ c.«structure».has_dashes = true ∨
          ∃ l ∈ survivors c, leadingDash (pyStrip l) = true then
        joinNL ((survivors c).map (fun l =>
          if removeLeadingDash (pyStrip l) ≠ [] then '-' :: removeLeadingDash (pyStrip l)
          else pyStrip l))
      else joinNL (survivors c) := by
  have hmem := mem_survivors_stripped (c := c)
  have hnl' := mem_survivors_no_newline hnl
  have hguard : ¬((pyStrip (joinNL (survivors c))).isEmpty = true) := by
    simpa using List.isEmpty_eq_false.mpr (pyStrip_joinNL_ne_nil hS hmem)
  have hsplit : splitNL (joinNL (survivors c)) = survivors c :=
    splitNL_joinNL _ hS hnl'
  unfold format_structure
  rw [if_neg hguard, hsplit]
  by_cases hc : 1 < c.«structure».speaker_count ∨ c.«structure».has_dashes = true ∨
      ∃ l ∈ survivors c, leadingDash (pyStrip l) = true
  · rw [if_pos ((should_format_iff c hmem).mpr hc), if_pos hc]
    exact congrArg joinNL (List.map_congr_left (fun l hl =>
      format_line_stripped_eq (hmem l hl).1 (hmem l hl).2))
  · rw [if_neg (fun h => hc ((should_format_iff c hmem).mp h)), if_neg hc]

theorem claim1_format_decision_witness :
    (∀ l ∈ (Subtitle.ofText 1 [] [] (strL "SHELDON: Hi.\nLEONARD: No.")).lines,
      '\n' ∉ l) ∧
    survivors (Subtitle.ofText 1 [] [] (strL "SHELDON: Hi.\nLEONARD: No.")) ≠ [] ∧
    (format_structure (Subtitle.ofText 1 [] [] (strL "SHELDON: Hi.\nLEONARD: No."))
      (joinNL (survivors (Subtitle.ofText 1 [] [] (strL "SHELDON: Hi.\nLEONARD: No.")))) =
      if 1 < (Subtitle.ofText 1 [] [] (strL "SHELDON: Hi.\nLEONARD: No.")).«structure».speaker_count ∨
          (Subtitle.ofText 1 [] [] (strL "SHELDON: Hi.\nLEONARD: No.")).«structure».has_dashes = true ∨
          ∃ l ∈ survivors (Subtitle.ofText 1 [] [] (strL "SHELDON: Hi.\nLEONARD: No.")),
            leadingDash (pyStrip l) = true then
        joinNL ((survivors (Subtitle.ofText 1 [] [] (strL "SHELDON: Hi.\nLEONARD: No."))).map
          (fun l =>
            if removeLeadingDash (pyStrip l) ≠ [] then '-' :: removeLeadingDash (pyStrip l)
            else pyStrip l))
      else joinNL (survivors (Subtitle.ofText 1 [] [] (strL "SHELDON: Hi.\nLEONARD: No.")))) :=
  ⟨by decide, by decide,
    claim1_format_decision (Subtitle.ofText 1 [] [] (strL "SHELDON: Hi.\nLEONARD: No."))
      (by decide) (by decide)⟩

/-- Claim C3, counterexample: cleaning is not idempotent even though the
cleaned caption retains the original profile.  `"A: B: C"` cleans to
`"B: C"` (only the first speaker label is removed), and cleaning the result
again removes the now-leading `"B:"` and yields `"C"`. -/
theorem claim3_counterexample :
    ((clean_subtitle (Subtitle.ofText 1 [] [] (strL "A: B: C"))).«structure»
      = (Subtitle.ofText 1 [] [] (strL "A: B: C")).«structure») ∧
    (clean_subtitle (clean_subtitle (Subtitle.ofText 1 [] [] (strL "A: B: C")))).text
      ≠ (clean_subtitle (Subtitle.ofText 1 [] [] (strL "A: B: C"))).text := by decide

/-- Claim C3, amended: cleaning is idempotent with the structural profile held
fixed at the first pass's original snapshot (which `clean_subtitle` does
automatically, since the returned caption keeps the original profile),
PROVIDED no line of the first clean's output still matches the speaker-label
marker, i.e. speaker stripping is the identity on each output line; the
counterexample `"A: B: C"` shows this proviso is necessary.  The caption's
lines are assumed newline-free, as holds for every caption the core builds. -/
theorem claim3_idempotent_fixed_profile (c : Subtitle)
    (hnl : ∀ l ∈ c.lines, '\n' ∉ l)
    (hsp : ∀ l ∈ (clean_subtitle c).lines, remove_speaker_identification l = l) :
    (clean_subtitle (clean_subtitle c)).text = (clean_subtitle c).text := by
  by_cases hS : survivors c = []
  · have hT1 : (clean_subtitle c).text = [] := clean_text_of_no_survivors hS
    have hS2 : survivors (clean_subtitle c) = [] := by
      unfold survivors
      rw [clean_subtitle_lines, hT1]
      rfl
    rw [clean_text_of_no_survivors hS2, hT1]
  · have hmemS : ∀ l ∈ survivors c, pyStrip l = l ∧ l ≠ [] := mem_survivors_stripped
    have hnlS : ∀ l ∈ survivors c, '\n' ∉ l := mem_survivors_no_newline hnl
    have hmarkS : ∀ s ∈ survivors c,
        ¬ [('(' : Char), ')'].Sublist s ∧ ¬ [('[' : Char), ']'].Sublist s ∧
        ¬ [('\x7b' : Char), '\x7d'].Sublist s ∧ ¬ [('#' : Char), '#'].Sublist s ∧
        '♪' ∉ s := by
      intro s hs
      obtain ⟨-, -, l0, hl0, rfl⟩ := mem_survivors hs
      exact clean_line_markerFree l0
    by_cases hcond : should_format c (survivors c) = true
    · -- Reformatting triggered: the output lines are the cleanups of the
      -- dash-formatted lines.
      have hFne : (survivors c).map format_line ≠ [] := by simpa using hS
      have hFfacts : ∀ f ∈ (survivors c).map format_line,
          pyStrip f = f ∧ f ≠ [] ∧ '\n' ∉ f ∧ leadingDash f = true ∧
          ((∃ X, f = '-' :: X) ∨ (∃ d, f = [d] ∧ isDashChar d = true)) ∧
          ¬ [('(' : Char), ')'].Sublist f ∧ ¬ [('[' : Char), ']'].Sublist f ∧
          ¬ [('\x7b' : Char), '\x7d'].Sublist f ∧ ¬ [('#' : Char), '#'].Sublist f ∧
          '♪' ∉ f := by
        intro f hf
        obtain ⟨s, hs, rfl⟩ := List.mem_map.mp hf
        obtain ⟨hst, hne⟩ := hmemS s hs
        obtain ⟨hp, hb, hcu, hh, hm⟩ := hmarkS s hs
        have hnls : '\n' ∉ s := hnlS s hs
        have hlast : ∀ e, s.getLast? = some e → isPySpace e = false := by
          intro e he
          exact pyStrip_getLast_not_ws (l := s) (by rw [hst]; exact he)
        have hmarkT : ∀ (a b : Char), a ≠ '-' → ¬ [a, b].Sublist s →
            ¬ [a, b].Sublist (format_line s) :=
          fun a b ha hab => format_line_pair_transport ha hab hst
        have hmusT : '♪' ∉ format_line s := format_line_music_transport hm hst
        have hnlT : '\n' ∉ format_line s := by
          rcases format_line_shape hst hne with ⟨hf1, _⟩ | ⟨hf1, _⟩
          · rw [hf1]
            intro hmem
            rcases List.mem_cons.mp hmem with h1 | h1
            · exact absurd h1 (by decide)
            · exact hnls ((removeLeadingDash_sublist s).subset h1)
          · rw [hf1]
            exact hnls
        rcases format_line_shape hst hne with ⟨hf1, hX⟩ | ⟨hf1, d, hsd, hd⟩
        · have hgl : ('-' :: removeLeadingDash s).getLast? = s.getLast? := by
            rw [getLast?_cons_ne_nil hX]
            cases s with
            | nil => exact absurd rfl hne
            | cons x xs =>
              by_cases hdx : isDashChar x = true
              · rw [show removeLeadingDash (x :: xs) = xs from by
                  simp [removeLeadingDash, hdx]]
                have hxs : xs ≠ [] := by
                  intro h0
                  rw [show removeLeadingDash (x :: xs) = xs from by
                    simp [removeLeadingDash, hdx], h0] at hX
                  exact hX rfl
                exact (getLast?_cons_ne_nil hxs).symm
              · rw [show removeLeadingDash (x :: xs) = x :: xs from by
                  simp [removeLeadingDash, hdx]]
          have hstripf : pyStrip ('-' :: removeLeadingDash s) = '-' :: removeLeadingDash s := by
            apply pyStrip_eq_self
            · intro e he
              rw [List.head?_cons, Option.some_inj] at he
              subst he
              decide
            · intro e he
              rw [hgl] at he
              exact hlast e he
          rw [hf1] at hmarkT hmusT hnlT ⊢
          refine ⟨hstripf, by simp, hnlT, ?_, Or.inl ⟨_, rfl⟩,
            hmarkT '(' ')' (by decide) hp, hmarkT '[' ']' (by decide) hb,
            hmarkT '\x7b' '\x7d' (by decide) hcu, hmarkT '#' '#' (by decide) hh, hmusT⟩
          rw [leadingDash_cons]
          decide
        · rw [hf1] at hmarkT hmusT hnlT ⊢
          subst hsd
          refine ⟨pyStrip_eq_self (normLine_single (dashChar_not_ws hd)).2.2.1
              (normLine_single (dashChar_not_ws hd)).2.2.2, by simp, hnlT, ?_,
            Or.inr ⟨d, rfl, hd⟩, hmarkT '(' ')' (by decide) hp,
            hmarkT '[' ']' (by decide) hb, hmarkT '\x7b' '\x7d' (by decide) hcu,
            hmarkT '#' '#' (by decide) hh, hmusT⟩
          rw [leadingDash_cons]
          exact hd
      have hFstrip : ∀ f ∈ (survivors c).map format_line, pyStrip f = f ∧ f ≠ [] :=
        fun f hf => ⟨(hFfacts f hf).1, (hFfacts f hf).2.1⟩
      have hFnl : ∀ f ∈ (survivors c).map format_line, '\n' ∉ f :=
        fun f hf => (hFfacts f hf).2.2.1
      have hFnw : ∀ f ∈ (survivors c).map format_line, ∃ ch ∈ f, isPySpace ch = false :=
        fun f hf => exists_nonws_of_stripped (hFfacts f hf).1 (hFfacts f hf).2.1
      have hT1 : (clean_subtitle c).text
          = joinNL (((survivors c).map format_line).map cleanup_line) := by
        rw [clean_subtitle_text, format_structure_on_join c hS hmemS hnlS, if_pos hcond,
          final_cleanup_join hFne hFnl hFnw]
      have hMne : ((survivors c).map format_line).map cleanup_line ≠ [] := by
        simpa using hFne
      have hMstrip : ∀ m ∈ ((survivors c).map format_line).map cleanup_line,
          pyStrip m = m ∧ m ≠ [] := by
        intro m hm
        obtain ⟨f, hf, rfl⟩ := List.mem_map.mp hm
        exact ⟨cleanup_line_stripped f, cleanup_line_ne_nil (hFnw f hf)⟩
      have hMnl : ∀ m ∈ ((survivors c).map format_line).map cleanup_line, '\n' ∉ m := by
        intro m hm
        obtain ⟨f, _, rfl⟩ := List.mem_map.mp hm
        exact newline_not_mem_cleanup f
      have hMcleanup : ∀ m ∈ ((survivors c).map format_line).map cleanup_line,
          cleanup_line m = m := by
        intro m hm
        obtain ⟨f, _, rfl⟩ := List.mem_map.mp hm
        exact cleanup_line_idem f
      have hlines1 : (clean_subtitle c).lines
          = ((survivors c).map format_line).map cleanup_line := by
        rw [clean_subtitle_lines, hT1, splitNL_joinNL _ hMne hMnl]
      have hMfix : ∀ m ∈ ((survivors c).map format_line).map cleanup_line,
          clean_line m = m := by
        intro m hm
        obtain ⟨f, hf, rfl⟩ := List.mem_map.mp hm
        obtain ⟨hfs, hfne, hfnl, hfdash, hfshape, hfp, hfb, hfc, hfh, hfm⟩ := hFfacts f hf
        refine clean_line_eq_self
          (pair_not_sublist_cleanup (by decide) (by decide) hfp)
          (pair_not_sublist_cleanup (by decide) (by decide) hfb)
          (pair_not_sublist_cleanup (by decide) (by decide) hfc)
          (pair_not_sublist_cleanup (by decide) (by decide) hfh)
          (fun hmem => hfm (mem_cleanup_nonws (by decide) hmem))
          (hsp _ ?_) (cleanup_line_stripped f)
        rw [hlines1]
        exact hm
      have hMfmt : ∀ m ∈ ((survivors c).map format_line).map cleanup_line,
          format_line m = m := by
        intro m hm
        obtain ⟨f, hf, rfl⟩ := List.mem_map.mp hm
        rcases (hFfacts f hf).2.2.2.2.1 with ⟨X, hX⟩ | ⟨d, hfd, hd⟩
        · subst hX
          obtain ⟨r, hr⟩ := cleanup_line_cons_nonws '-' X
            (by decide : isPySpace '-' = false)
          rw [hr]
          exact format_line_fix_hyphen (by rw [← hr]; exact cleanup_line_stripped _)
        · subst hfd
          rw [cleanup_line_eq_self (normLine_single (dashChar_not_ws hd))]
          exact format_line_fix_single_dash hd
      have h2 := clean_on_fixed_lines hlines1 hMne hMfix hMstrip hMnl hMcleanup
        (fun _ => hMfmt)
      rw [h2, hT1]
    · -- No reformatting: the output lines are the cleanups of the surviving
      -- cleaned lines, and the second pass does not reformat either.
      have hnwS : ∀ s ∈ survivors c, ∃ ch ∈ s, isPySpace ch = false :=
        fun s hs => exists_nonws_of_stripped (hmemS s hs).1 (hmemS s hs).2
      have hT1 : (clean_subtitle c).text = joinNL ((survivors c).map cleanup_line) := by
        rw [clean_subtitle_text, format_structure_on_join c hS hmemS hnlS, if_neg hcond,
          final_cleanup_join hS hnlS hnwS]
      have hMne : (survivors c).map cleanup_line ≠ [] := by simpa using hS
      have hMstrip : ∀ m ∈ (survivors c).map cleanup_line, pyStrip m = m ∧ m ≠ [] := by
        intro m hm
        obtain ⟨s, hs, rfl⟩ := List.mem_map.mp hm
        exact ⟨cleanup_line_stripped s, cleanup_line_ne_nil (hnwS s hs)⟩
      have hMnl : ∀ m ∈ (survivors c).map cleanup_line, '\n' ∉ m := by
        intro m hm
        obtain ⟨s, _, rfl⟩ := List.mem_map.mp hm
        exact newline_not_mem_cleanup s
      have hMcleanup : ∀ m ∈ (survivors c).map cleanup_line, cleanup_line m = m := by
        intro m hm
        obtain ⟨s, _, rfl⟩ := List.mem_map.mp hm
        exact cleanup_line_idem s
      have hlines1 : (clean_subtitle c).lines = (survivors c).map cleanup_line := by
        rw [clean_subtitle_lines, hT1, splitNL_joinNL _ hMne hMnl]
      have hMfix : ∀ m ∈ (survivors c).map cleanup_line, clean_line m = m := by
        intro m hm
        obtain ⟨s, hs, rfl⟩ := List.mem_map.mp hm
        obtain ⟨hp, hb, hcu, hh, hm'⟩ := hmarkS s hs
        refine clean_line_eq_self
          (pair_not_sublist_cleanup (by decide) (by decide) hp)
          (pair_not_sublist_cleanup (by decide) (by decide) hb)
          (pair_not_sublist_cleanup (by decide) (by decide) hcu)
          (pair_not_sublist_cleanup (by decide) (by decide) hh)
          (fun hmem => hm' (mem_cleanup_nonws (by decide) hmem))
          (hsp _ ?_) (cleanup_line_stripped s)
        rw [hlines1]
        exact hm
      have hcondF : should_format c (survivors c) = false := by
        simpa using hcond
      obtain ⟨hc1, hc2', hc3⟩ := should_format_false_parts hcondF
      have hanyM : ((survivors c).map cleanup_line).any
          (fun line => !(pyStrip line).isEmpty && leadingDash (pyStrip line)) = false := by
        rw [List.any_eq_false]
        intro m hm
        obtain ⟨s, hs, rfl⟩ := List.mem_map.mp hm
        have hsS := List.any_eq_false.mp hc3 s hs
        intro hbad
        apply hsS
        obtain ⟨hb1, hb2⟩ := Bool.and_eq_true_iff.mp hbad
        rw [cleanup_line_stripped s] at hb2
        rw [leadingDash_cleanup (hmemS s hs).1] at hb2
        refine Bool.and_eq_true_iff.mpr ⟨?_, ?_⟩
        · rw [(hmemS s hs).1]
          simpa using List.isEmpty_eq_false.mpr (hmemS s hs).2
        · rw [(hmemS s hs).1]
          exact hb2
      have hc2 : should_format (clean_subtitle c) ((survivors c).map cleanup_line)
          = false := by
        rw [should_format_congr (clean_subtitle_structure c)]
        exact should_format_false_build hc1 hc2' hanyM
      have h2 := clean_on_fixed_lines hlines1 hMne hMfix hMstrip hMnl hMcleanup
        (fun h => absurd h (by simp [hc2]))
      rw [h2, hT1]

theorem claim3_idempotent_fixed_profile_witness :
    (∀ l ∈ (Subtitle.ofText 1 [] [] (strL "SHELDON: Hi.\nLEONARD: No.")).lines,
      '\n' ∉ l) ∧
    (∀ l ∈ (clean_subtitle
        (Subtitle.ofText 1 [] [] (strL "SHELDON: Hi.\nLEONARD: No."))).lines,
      remove_speaker_identification l = l) ∧
    (clean_subtitle (clean_subtitle
        (Subtitle.ofText 1 [] [] (strL "SHELDON: Hi.\nLEONARD: No.")))).text
      = (clean_subtitle (Subtitle.ofText 1 [] [] (strL "SHELDON: Hi.\nLEONARD: No."))).text :=
  ⟨by decide, by decide,
    claim3_idempotent_fixed_profile
      (Subtitle.ofText 1 [] [] (strL "SHELDON: Hi.\nLEONARD: No."))
      (by decide) (by decide)⟩

/-- Claim C4, counterexample: a timestamp line containing two `-->`
occurrences splits into three parts, so `len(times) == 2` fails and the
caption keeps the initial empty timestamps instead of being split at the
first occurrence. -/
theorem claim4_counterexample :
    (parse_subtitles [strL "1", strL "00:00:01,000 --> 00:00:02,000 --> 00:00:03,000",
        strL "hello", strL ""]).map Subtitle.start_time = [[]] ∧
    (parse_subtitles [strL "1", strL "00:00:01,000 --> 00:00:02,000 --> 00:00:03,000",
        strL "hello", strL ""]).map Subtitle.end_time = [[]] ∧
    ([] : List Char) ≠ strL "00:00:01,000" := by decide

/-- Claim C4, amended: within an open block (a caption number has been seen),
a non-blank line containing `-->` is always consumed as a timestamp line; it
sets the start and end timestamps to the stripped halves only when splitting
on `-->` yields exactly two parts (exactly one occurrence); otherwise the
previously pending timestamps are left unchanged. -/
theorem claim4_timestamp_rule (s : ParseState) (raw : List Char)
    (hn : 0 < s.current_number)
    (ha : containsArrow (rstripNLCR raw) = true) :
    parse_line s raw =
      match splitArrow (rstripNLCR raw) with
      | [a, b] => { s with current_start := pyStrip a, current_end := pyStrip b }
      | _ => s := by
  unfold parse_line parse_line_core
  have h1 : (pyStrip (rstripNLCR raw)).isEmpty = false :=
    List.isEmpty_eq_false.mpr (pyStrip_ne_nil_of_containsArrow ha)
  have h2 : isDigitLine (rstripNLCR raw) = false := isDigitLine_false_of_containsArrow ha
  have h3 : decide (0 < s.current_number) = true := decide_eq_true hn
  simp only [h1, h2, h3, ha, Bool.false_and, Bool.true_and, Bool.false_eq_true, if_false,
    if_true]

theorem claim4_timestamp_rule_witness :
    (0 < (⟨1, [], [], [], []⟩ : ParseState).current_number) ∧
    containsArrow (rstripNLCR (strL "00:00:01,000 --> 00:00:02,000")) = true ∧
    parse_line ⟨1, [], [], [], []⟩ (strL "00:00:01,000 --> 00:00:02,000")
      = match splitArrow (rstripNLCR (strL "00:00:01,000 --> 00:00:02,000")) with
        | [a, b] => { (⟨1, [], [], [], []⟩ : ParseState) with
            current_start := pyStrip a, current_end := pyStrip b }
        | _ => (⟨1, [], [], [], []⟩ : ParseState) :=
  ⟨by decide, by decide,
    claim4_timestamp_rule ⟨1, [], [], [], []⟩ _ (by decide) (by decide)⟩

/-- Claim C6: every caption the core produces satisfies the invariant that
`text` equals `lines` joined with a line break: captions constructed by the
parser, and captions returned by `clean_subtitle`. -/
theorem claim6_text_join_lines (content : List (List Char)) (c sub : Subtitle)
    (hsub : sub ∈ parse_subtitles content) :
    sub.text = joinNL sub.lines ∧
    (clean_subtitle c).text = joinNL (clean_subtitle c).lines := by
  constructor
  · exact (parse_sound content sub hsub).1
  · rw [clean_subtitle_lines]
    exact (joinNL_splitNL _).symm

theorem claim6_text_join_lines_witness :
    ((parse_subtitles [strL "1", strL "00:00:01,000 --> 00:00:02,000", strL "hi",
        strL ""]).headD (Subtitle.ofText 1 [] [] [])
      ∈ parse_subtitles [strL "1", strL "00:00:01,000 --> 00:00:02,000", strL "hi",
        strL ""]) ∧
    (((parse_subtitles [strL "1", strL "00:00:01,000 --> 00:00:02,000", strL "hi",
        strL ""]).headD (Subtitle.ofText 1 [] [] [])).text
      = joinNL ((parse_subtitles [strL "1", strL "00:00:01,000 --> 00:00:02,000",
        strL "hi", strL ""]).headD (Subtitle.ofText 1 [] [] [])).lines ∧
      (clean_subtitle (Subtitle.ofText 1 [] [] (strL "hey"))).text
        = joinNL (clean_subtitle (Subtitle.ofText 1 [] [] (strL "hey"))).lines) :=
  ⟨by decide,
    claim6_text_join_lines
      [strL "1", strL "00:00:01,000 --> 00:00:02,000", strL "hi", strL ""]
      (Subtitle.ofText 1 [] [] (strL "hey"))
      ((parse_subtitles [strL "1", strL "00:00:01,000 --> 00:00:02,000", strL "hi",
        strL ""]).headD (Subtitle.ofText 1 [] [] []))
      (by decide)⟩

/-- Claim C7: the claim of exception-freedom is false of the code.  On an
input file whose caption-number line is the superscript digit `"²"`,
`line.isdigit()` accepts the line (superscript digits are digit-class
characters), so the number branch calls `int(line)`, which accepts only
decimal digits and raises `ValueError`, aborting `parse_subtitles`.  The
checked parser, which models the `int` call as fallible, returns `none` on
exactly such runs (and agrees with the total parser on all others, see
`parse_subtitles_checked_agrees`). -/
theorem claim7_parse_crashes :
    isDigitLine (strL "²") = true ∧
    (strL "²").all Char.isDigit = false ∧
    parse_subtitles_checked [strL "²", strL "00:00:01,000 --> 00:00:02,000",
      strL "hi", strL ""] = none ∧
    parse_subtitles_checked [strL "1", strL "00:00:01,000 --> 00:00:02,000",
      strL "hi", strL ""]
      = some (parse_subtitles [strL "1", strL "00:00:01,000 --> 00:00:02,000",
          strL "hi", strL ""]) := by decide

/-- Claim C10: every caption produced by the parser has a positive number, a
non-empty list of text lines, each of them non-blank; and a block with a
number (and a timestamp line) but no text lines produces no caption at all. -/
theorem claim10_parse_output (content : List (List Char)) (sub : Subtitle)
    (hsub : sub ∈ parse_subtitles content) :
    (0 < sub.number ∧ sub.lines ≠ [] ∧ ∀ l ∈ sub.lines, pyStrip l ≠ []) ∧
    parse_subtitles [strL "5", strL "00:00:01,000 --> 00:00:02,000", strL ""] = [] := by
  have hg := parse_sound content sub hsub
  exact ⟨⟨hg.2.1, hg.2.2.1, hg.2.2.2⟩, by decide⟩

theorem claim10_parse_output_witness :
    ((parse_subtitles [strL "1", strL "00:00:01,000 --> 00:00:02,000", strL "hi",
        strL ""]).headD (Subtitle.ofText 1 [] [] [])
      ∈ parse_subtitles [strL "1", strL "00:00:01,000 --> 00:00:02,000", strL "hi",
        strL ""]) ∧
    ((0 < ((parse_subtitles [strL "1", strL "00:00:01,000 --> 00:00:02,000", strL "hi",
        strL ""]).headD (Subtitle.ofText 1 [] [] [])).number ∧
      ((parse_subtitles [strL "1", strL "00:00:01,000 --> 00:00:02,000", strL "hi",
        strL ""]).headD (Subtitle.ofText 1 [] [] [])).lines ≠ [] ∧
      ∀ l ∈ ((parse_subtitles [strL "1", strL "00:00:01,000 --> 00:00:02,000", strL "hi",
        strL ""]).headD (Subtitle.ofText 1 [] [] [])).lines, pyStrip l ≠ []) ∧
      parse_subtitles [strL "5", strL "00:00:01,000 --> 00:00:02,000", strL ""] = []) :=
  ⟨by decide,
    claim10_parse_output
      [strL "1", strL "00:00:01,000 --> 00:00:02,000", strL "hi", strL ""]
      ((parse_subtitles [strL "1", strL "00:00:01,000 --> 00:00:02,000", strL "hi",
        strL ""]).headD (Subtitle.ofText 1 [] [] []))
      (by decide)⟩

end FixCC
